import Mathlib

/-!
Verification of the ISeeTV ingestion pipeline (download → parse → load) against
its natural-language specification.  The repository carries two backend
generations side by side: the service layer under `backend/app/` (M3UService,
EPGService, stream_download) and the newer pipeline under `backend/ingest/`,
`backend/common/` and `backend/main.py` (m3u_parser, epg_parser, the loaders,
download_helper, the task-state registry).  Both are embedded here, each
definition translated from the corresponding Python function.

Conventions of the embedding:
* Python dicts of string attributes become association lists
  (`List (String × String)`) looked up by first match; an `#EXTINF` or XML
  attribute map is carried already lexed, each constructor documenting the
  concrete source line shape it stands for.
* Wall-clock timestamps become `Nat` values supplied by the caller; the
  cooperative event loop is replaced by an explicit event list: chunks arriving,
  transport errors, and cancellation signals raised by another coroutine at a
  yield point.
* The byte content of a file is abstracted to the list of chunk sizes written;
  "no file at the destination" is `none`.
* Python code paths that raise become `Except`/`Option` results; paths that
  return normally become plain values.
-/

namespace ISeeTV

/-- First-match lookup in an attribute map, mirroring a Python `dict.get(k)`
(the maps embedded here carry each key once, as a parsed dict does). -/
def attrGet (attrs : List (String × String)) (k : String) : Option String :=
  (attrs.find? (fun p => p.1 == k)).map (·.2)

/-- `dict.get(k, default)`. -/
def attrGetD (attrs : List (String × String)) (k : String) (d : String) : String :=
  (attrGet attrs k).getD d

/-- Python `str.strip()`: drop leading and trailing whitespace.  (Structurally
recursive so that concrete playlists evaluate inside the kernel.) -/
def pyStrip (s : String) : String :=
  ⟨((s.data.dropWhile Char.isWhitespace).reverse.dropWhile Char.isWhitespace).reverse⟩

/-! ## M3U playlist parsing

Two implementations exist in the repository.

`backend/ingest/m3u_parser.py` (`parse_m3u` / `validate_m3u_channel`): an
`#EXTINF` entry without a `tvg-id` attribute receives the channel name as a
synthesized fallback identifier and is kept.

`backend/app/services/m3u_service.py` (`M3UService.parse_m3u`): an `#EXTINF`
entry without a `tvg-id` is excluded and a row with reason
`missing_channel_id` is appended to the rejected-entry CSV. -/

/-- `models/models.py` `M3uChannel`. -/
structure M3uChannel where
  source : String
  tvg_id : String
  name : String
  stream_url : String
  logo_url : Option String
  group : Option String
  deriving Repr, DecidableEq

/-- `ingest/m3u_parser.py` `validate_m3u_channel`: validates parsed `#EXTINF`
data and builds an `M3uChannel`; returns `none` when there is no stream URL.
When `tvg-id` is missing or blank the channel name is used as fallback id. -/
def validate_m3u_channel (attrs : List (String × String)) (channelName : String)
    (streamUrl : Option String) : Option M3uChannel :=
  match streamUrl with
  | none => none
  | some u =>
    if pyStrip u = "" then none
    else
      let tvg_id0 := pyStrip (attrGetD attrs "tvg-id" "")
      let name0 := pyStrip (attrGetD attrs "tvg-name" channelName)
      let name := if name0 = "" then channelName else name0
      let logo0 := pyStrip (attrGetD attrs "tvg-logo" "")
      let logo_url := if logo0 = "" then none else some logo0
      let group0 := pyStrip (attrGetD attrs "group-title" "")
      let group := if group0 = "" then none else some group0
      let tvg_id := if tvg_id0 = "" then channelName else tvg_id0
      some { source := "m3u", tvg_id := tvg_id, name := name,
             stream_url := pyStrip u, logo_url := logo_url, group := group }

/-- One already-lexed line of an M3U file as `ingest/m3u_parser.py` sees it:
an `#EXTINF:` directive (carrying its parsed attribute dict and the display
name after the last comma), a stream-URL line (`line.startswith("http")`), any
other `#` tag line, or a blank/unmatched line. -/
inductive IngLine where
  | extinf (attrs : List (String × String)) (channelName : String)
  | url (u : String)
  | tag
  | blank
  deriving Repr, DecidableEq

/-- Loop body state of `ingest/m3u_parser.py` `parse_m3u`: the pending
`#EXTINF` data, if any. -/
def ingestParseM3uGo (source : String) :
    List IngLine → Option (List (String × String) × String) → List M3uChannel
  | [], _ => []
  | .extinf attrs name :: rest, _ => ingestParseM3uGo source rest (some (attrs, name))
  | .url u :: rest, some (attrs, name) =>
    match validate_m3u_channel attrs name (some u) with
    | some c => { c with source := source } :: ingestParseM3uGo source rest none
    | none => ingestParseM3uGo source rest none
  | .url _ :: rest, none => ingestParseM3uGo source rest none
  | .tag :: rest, cur => ingestParseM3uGo source rest cur
  | .blank :: rest, cur => ingestParseM3uGo source rest cur

/-- `ingest/m3u_parser.py` `parse_m3u`: single pass over the lines, emitting a
channel whenever a URL line follows a pending `#EXTINF` block. -/
def ingestParseM3u (lines : List IngLine) (source : String) : List M3uChannel :=
  ingestParseM3uGo source lines none

/-- `app/services/m3u_service.py` `ChannelDict`. -/
structure ChannelDict where
  channel_id : String
  name : String
  url : String
  group : String
  logo : Option String
  is_missing : Bool
  is_favorite : Bool
  deriving Repr, DecidableEq

/-- A row of `m3u_channel_id_failures.csv` written by
`M3UService.parse_m3u`: `'',{name},{group},'missing_channel_id'`. -/
structure BadChannelRow where
  name : String
  group : String
  reason : String
  deriving Repr, DecidableEq

/-- One already-lexed line as `M3UService.parse_m3u` sees it.  `extinf` stands
for an `#EXTINF:` line whose payload `line[8:].split(",", 1)` has two parts,
with the attribute dict parsed from the first part; `extinfNoComma` for an
`#EXTINF:` line without a comma (ignored by the code); `url` for a line
starting with `http`; `skip` for `#EXTM3U`, `#EXT-X-SESSION-DATA` or an empty
line; `other` for anything else (only logged). -/
inductive SvcLine where
  | extinf (attrs : List (String × String))
  | extinfNoComma
  | url (u : String)
  | skip
  | other
  deriving Repr, DecidableEq

/-- Loop state of `M3UService.parse_m3u`.  `lastGroup` models the Python local
variable `group`, which is assigned only in the branch that accepts a channel;
the rejection branch reads it, so before any accepted channel it is unbound
(`none`) and reading it raises `UnboundLocalError`. -/
structure SvcM3uState where
  channels : List ChannelDict
  current : Option ChannelDict
  badLog : List BadChannelRow
  lastGroup : Option String
  deriving Repr, DecidableEq

/-- Loop of `M3UService.parse_m3u` over the lexed lines; `.error` models the
`UnboundLocalError` escaping when the rejection row is formatted while the
local `group` is still unbound. -/
def svcParseM3uGo : List SvcLine → SvcM3uState → Except String SvcM3uState
  | [], st => .ok st
  | .extinf attrs :: rest, st =>
    let name := attrGetD attrs "tvg-name" ""
    match attrGet attrs "tvg-id" with
    | some cid =>
      if cid ≠ "" then
        let group := attrGetD attrs "group-title" "Uncategorized"
        svcParseM3uGo rest { st with
          current := some { channel_id := cid, name := name, group := group,
                            logo := attrGet attrs "tvg-logo", url := "",
                            is_missing := false, is_favorite := false },
          lastGroup := some group }
      else
        match st.lastGroup with
        | none => .error "UnboundLocalError: group"
        | some g =>
          svcParseM3uGo rest { st with
            badLog := st.badLog ++ [⟨name, g, "missing_channel_id"⟩] }
    | none =>
      match st.lastGroup with
      | none => .error "UnboundLocalError: group"
      | some g =>
        svcParseM3uGo rest { st with
          badLog := st.badLog ++ [⟨name, g, "missing_channel_id"⟩] }
  | .url u :: rest, st =>
    match st.current with
    | some c =>
      svcParseM3uGo rest { st with channels := st.channels ++ [{ c with url := u }],
                                   current := none }
    | none => svcParseM3uGo rest st
  | .extinfNoComma :: rest, st => svcParseM3uGo rest st
  | .skip :: rest, st => svcParseM3uGo rest st
  | .other :: rest, st => svcParseM3uGo rest st

/-- `M3UService.parse_m3u`: returns the accepted channels and the rejected-entry
rows, or the escaping exception. -/
def svcParseM3u (lines : List SvcLine) :
    Except String (List ChannelDict × List BadChannelRow) :=
  (svcParseM3uGo lines ⟨[], none, [], none⟩).map fun st => (st.channels, st.badLog)

/-- Whether a lexed service-parser line is an `#EXTINF` entry lacking a usable
`tvg-id` (attribute missing, or present but empty — both rejected by
`if channel_id:`). -/
def missingId : SvcLine → Bool
  | .extinf attrs => match attrGet attrs "tvg-id" with
    | some cid => cid = ""
    | none => true
  | _ => false

/-! ## Loader upserts (`ingest/m3u_loader.py`, `ingest/epg_loader.py`)

`_upsert_m3u_channel` issues a SQLite `INSERT ... ON CONFLICT(source, tvg_id)
DO UPDATE` and classifies the outcome by `result.rowcount`.  In SQLite the
`DO UPDATE` arm updates the conflicting row even when every new value equals
the stored one, and `changes()` — surfaced as the DBAPI `rowcount` — counts
that row, so the rowcount is `1` for both the insert and the update arm,
identical content or not.  The upsert below returns the new table together
with that rowcount.  (`_upsert_program` in `epg_loader.py` is the same
pattern over the `(source, program_id)` key.)  Batch commits every 200
records do not affect the final rows and are not modelled. -/

/-- A row of the `m3u_channels` table (`models/db_models.py`
`M3uChannelTable`). -/
structure M3uRow where
  source : String
  tvg_id : String
  name : String
  stream_url : String
  logo_url : Option String
  group : Option String
  created_at : Nat
  updated_at : Nat
  deriving Repr, DecidableEq

/-- The unique-index key `(source, tvg_id)` of a stored row. -/
def M3uRow.key (r : M3uRow) : String × String := (r.source, r.tvg_id)

/-- The upsert key of a parsed channel. -/
def M3uChannel.key (c : M3uChannel) : String × String := (c.source, c.tvg_id)

/-- All columns except `updated_at` — the content the second load must
preserve. -/
def M3uRow.content (r : M3uRow) :
    String × String × String × String × Option String × Option String × Nat :=
  (r.source, r.tvg_id, r.name, r.stream_url, r.logo_url, r.group, r.created_at)

/-- The row inserted for `c` when no key conflict exists; `created_at` and
`updated_at` take the column default (the current time). -/
def newM3uRow (now : Nat) (c : M3uChannel) : M3uRow :=
  ⟨c.source, c.tvg_id, c.name, c.stream_url, c.logo_url, c.group, now, now⟩

/-- The `DO UPDATE` arm: overwrite all non-key fields except `created_at`;
`updated_at` takes the excluded row's default, the current time. -/
def updM3uRow (now : Nat) (c : M3uChannel) (r : M3uRow) : M3uRow :=
  { r with name := c.name, stream_url := c.stream_url,
           logo_url := c.logo_url, group := c.group, updated_at := now }

/-- Whether the table holds a row with the given key. -/
def hasKey (tbl : List M3uRow) (k : String × String) : Bool :=
  tbl.any fun r => decide (r.key = k)

/-- SQLite `INSERT ... ON CONFLICT(source, tvg_id) DO UPDATE` as executed by
`_upsert_m3u_channel`: returns the new table and the statement's `rowcount`,
which is `1` in both arms (SQLite counts the updated row even when the new
values equal the stored ones). -/
def sqliteUpsertM3u (now : Nat) (tbl : List M3uRow) (c : M3uChannel) :
    List M3uRow × Nat :=
  if hasKey tbl c.key then
    (tbl.map fun r => if r.key = c.key then updM3uRow now c r else r, 1)
  else
    (tbl ++ [newM3uRow now c], 1)

/-- `ingest/m3u_loader.py` / `ingest/epg_loader.py` `LoadResult`. -/
structure LoadResult where
  record_type : String
  record_id : String
  status : String
  message : String
  deriving Repr, DecidableEq

/-- Python `f"{o}"` for an optional string: `None` when absent. -/
def pyShowOpt (o : Option String) : String := o.getD "None"

/-- `_upsert_m3u_channel`: execute the upsert, then report `upserted` when
`rowcount > 0` and `skipped` otherwise. -/
def upsertM3uChannel (now : Nat) (tbl : List M3uRow) (c : M3uChannel) :
    List M3uRow × LoadResult :=
  let t := sqliteUpsertM3u now tbl c
  if t.2 > 0 then
    (t.1, ⟨"M3U_CHANNEL", c.source ++ ":" ++ c.tvg_id, "upserted",
           "Channel '" ++ c.name ++ "' in group '" ++ pyShowOpt c.group ++
             "' processed"⟩)
  else
    (t.1, ⟨"M3U_CHANNEL", c.source ++ ":" ++ c.tvg_id, "skipped",
           "No changes detected"⟩)

/-- The `upserted` result `_upsert_m3u_channel` emits for `c`. -/
def upsertedResult (c : M3uChannel) : LoadResult :=
  ⟨"M3U_CHANNEL", c.source ++ ":" ++ c.tvg_id, "upserted",
   "Channel '" ++ c.name ++ "' in group '" ++ pyShowOpt c.group ++ "' processed"⟩

/-- The record-by-record loop of `load_m3u_channels_async`, restricted to its
store effect and yielded results. -/
def loadM3uChannels (now : Nat) (tbl : List M3uRow) :
    List M3uChannel → List M3uRow × List LoadResult
  | [] => (tbl, [])
  | c :: rest =>
    let t := upsertM3uChannel now tbl c
    let t' := loadM3uChannels now t.1 rest
    (t'.1, t.2 :: t'.2)

/-! ## Downloader and task registry
(`common/download_helper.py`, `common/state.py`, `common/models.py`)

The single-threaded cooperative runtime is replaced by an explicit event list:
`chunk sz` is one chunk arriving from `response.aiter_bytes(chunk_size=8192)`,
`netErr` a transport error raised mid-stream, and `cancelSignal` another
coroutine invoking `common/state.py` `cancel_task` on this task at a yield
point.  A task's registry entry is modelled directly; the destination file is
the list of chunk sizes written to it (`none` = no file).  `trace` records the
successive values written to `bytes_downloaded`, in order — the sequence a
poller of `/api/download/progress` can observe. -/

/-- One entry of the `download_progress` registry
(`create_download_task` fields). -/
structure TaskRec where
  status : String
  currentItem : Option String
  totalItems : Nat
  completedItems : Nat
  bytesDownloaded : Nat
  totalBytes : Nat
  errorMessage : Option String
  startedAt : Nat
  completedAt : Option Nat
  deriving Repr, DecidableEq

/-- `create_download_task`: a fresh `pending` task with zeroed counters. -/
def createDownloadTask (t0 : Nat) (totalItems : Nat) : TaskRec :=
  ⟨"pending", none, totalItems, 0, 0, 0, none, t0, none⟩

/-- Downloader-side state: the task's registry entry, the destination file,
whether the task id sits in the shared `cancelled_tasks` set, the clock, and
the observed `bytes_downloaded` write sequence. -/
structure DlState where
  task : TaskRec
  file : Option (List Nat)
  cancelled : Bool
  time : Nat
  trace : List Nat
  deriving Repr, DecidableEq

/-- Initial state for a freshly created download task: no file, not
cancelled. -/
def initDlState (t0 : Nat) (totalItems : Nat) : DlState :=
  ⟨createDownloadTask t0 totalItems, none, false, t0, []⟩

/-- An event during the streaming loop of `download_file_with_progress`. -/
inductive DlEvent where
  | cancelSignal
  | chunk (sz : Nat)
  | netErr (msg : String)
  deriving Repr, DecidableEq

/-- The three return values `(success, size, status)` of
`download_file_with_progress`, as one outcome. -/
inductive DlOutcome where
  | success (bytes : Nat)
  | failed
  | cancelled
  deriving Repr, DecidableEq

/-- `common/state.py` `cancel_task` as it affects this (registered) task:
adds the id to `cancelled_tasks` and immediately sets the registry status to
`failed` with a cancellation message. -/
def cancelTaskEffect (st : DlState) : DlState :=
  { st with
    cancelled := true,
    task := { st.task with
              status := "failed",
              errorMessage := some "Download task cancelled by user" } }

/-- The chunk loop of `download_file_with_progress`: before each chunk the
cancellation set is checked (stop, delete the partial file, clear the set
entry, mark `cancelled` with `completed_at`); a non-empty chunk is appended to
the file and `bytes_downloaded` updated; a transport error records the message
and returns the failure outcome — leaving the file as it is; a stream that
ends returns success. -/
def downloadLoop : List DlEvent → DlState → Nat → DlState × DlOutcome
  | [], st, d => (st, .success d)
  | .cancelSignal :: rest, st, d => downloadLoop rest (cancelTaskEffect st) d
  | .chunk sz :: rest, st, d =>
    if st.cancelled then
      ({ st with
          file := none, cancelled := false,
          task := { st.task with
                    status := "cancelled",
                    errorMessage := some "Download cancelled by user",
                    completedAt := some st.time },
          time := st.time + 1 }, .cancelled)
    else if sz ≠ 0 then
      downloadLoop rest
        { st with
          file := st.file.map (· ++ [sz]),
          task := { st.task with bytesDownloaded := d + sz },
          trace := st.trace ++ [d + sz], time := st.time + 1 } (d + sz)
    else downloadLoop rest st d
  | .netErr m :: _, st, _ =>
    ({ st with task := { st.task with errorMessage := some m } }, .failed)

/-- `download_file_with_progress`: mark the task `downloading`, validate the
URL (failing fast without touching the destination), determine `total_bytes`
from the declared length or the fallback, truncate/create the destination
file, then stream. -/
def downloadFileWithProgress (urlOk : Bool) (contentLength : Nat)
    (fallback : Option Nat) (itemName : String) (events : List DlEvent)
    (st0 : DlState) : DlState × DlOutcome :=
  let st := { st0 with
              task := { st0.task with
                        currentItem := some itemName,
                        status := "downloading" } }
  if urlOk then
    let total := if contentLength = 0 then fallback.getD 0 else contentLength
    let st := { st with
                task := { st.task with totalBytes := total },
                file := some [] }
    downloadLoop events st 0
  else
    ({ st with
       task := { st.task with
                 errorMessage := some "URL is not accessible" } }, .failed)

/-- The non-empty chunk sizes of an event list — the bytes a fully streamed
transfer writes. -/
def nzChunks : List DlEvent → List Nat
  | [] => []
  | .chunk sz :: rest => if sz ≠ 0 then sz :: nzChunks rest else nzChunks rest
  | _ :: rest => nzChunks rest

/-- `background_single_download_task` on an existing source (the happy path
of `orchestrate_file_download_from_source`): mark downloading, run the
download, then unconditionally mark the task `completed` with
`completed_items = 1` — whatever the download outcome was. -/
def backgroundSingleDownloadTask (urlOk : Bool) (contentLength : Nat)
    (fallback : Option Nat) (sourceName : String) (events : List DlEvent)
    (st0 : DlState) : DlState :=
  let st := { st0 with
              task := { st0.task with
                        status := "downloading",
                        currentItem := some sourceName } }
  let r := downloadFileWithProgress urlOk contentLength fallback sourceName
    events st
  { r.1 with
    task := { r.1.task with
              status := "completed",
              completedAt := some r.1.time, currentItem := none,
              completedItems := 1 },
    time := r.1.time + 1 }

/-- One source's transfer, as `background_download_task` sees it. -/
structure SourceDl where
  urlOk : Bool
  contentLength : Nat
  fallback : Option Nat
  name : String
  events : List DlEvent
  deriving Repr, DecidableEq

/-- The per-source loop of `background_download_task`: download each source
under the same task id; on success increment `completed_items`, otherwise
(failed or cancelled alike) mark the task `failed` and stop; after all
sources, mark `completed`.  (The source-metadata writes are modelled
separately by `orchestrateFileMetadata`; they do not touch the task.) -/
def backgroundDownloadTaskGo : List SourceDl → DlState → DlState
  | [], st =>
    { st with
      task := { st.task with
                status := "completed",
                completedAt := some st.time, currentItem := none },
      time := st.time + 1 }
  | s :: rest, st =>
    let r := downloadFileWithProgress s.urlOk s.contentLength s.fallback s.name
      s.events st
    match r.2 with
    | .success _ =>
      backgroundDownloadTaskGo rest
        { r.1 with
          task := { r.1.task with
                    completedItems := r.1.task.completedItems + 1 } }
    | _ => { r.1 with task := { r.1.task with status := "failed" } }

/-- `background_download_task`: set the task downloading, then run every
source in turn. -/
def backgroundDownloadTask (srcs : List SourceDl) (st0 : DlState) : DlState :=
  backgroundDownloadTaskGo srcs
    { st0 with task := { st0.task with status := "downloading" } }

/-- An event of `app/common/download_helper.py` `stream_download`, which
buffers the whole body in memory and writes the file only after the stream
ends. -/
inductive SdEvent where
  | chunk (sz : Nat)
  | err (msg : String)
  deriving Repr, DecidableEq

/-- The accumulation loop of `stream_download`: on any error the partial (or
pre-existing) file at `output_file` is removed and the exception re-raised
(`false`); when the stream completes the buffered content is written
(`true`). -/
def streamDownloadGo : List SdEvent → List Nat → Option (List Nat) × Bool
  | [], acc => (some acc, true)
  | .chunk sz :: rest, acc => streamDownloadGo rest (acc ++ [sz])
  | .err _ :: _, _ => (none, false)

/-- `stream_download`, reduced to its file-system outcome: the file at
`output_file` afterwards, and whether the download succeeded. -/
def streamDownload (events : List SdEvent) : Option (List Nat) × Bool :=
  streamDownloadGo events []

/-- The chunk sizes of a `stream_download` event list. -/
def sdChunks : List SdEvent → List Nat
  | [] => []
  | .chunk sz :: rest => sz :: sdChunks rest
  | .err _ :: rest => sdChunks rest

/-- The `update_ingest_item_progress` values written by
`load_m3u_channels_async` while loading `remaining` more channels, having
already processed `count`: the count is reported every 50 channels. -/
def loaderItemTrace : Nat → Nat → List Nat
  | 0, _ => []
  | Nat.succ k, c =>
    if (c + 1) % 50 = 0 then (c + 1) :: loaderItemTrace k (c + 1)
    else loaderItemTrace k (c + 1)

/-- The full `completed_items` sequence an ingest task exposes while
`load_m3u_channels_async` loads `n` channels: the initial
`update_ingest_item_progress(task_id, "Loading M3U channels...", 0, ...)`
followed by the every-50 reports. -/
def ingestItemsTrace (n : Nat) : List Nat := 0 :: loaderItemTrace n 0

/-! ## Task coordinator registry (`common/state.py`, `main.py`) -/

/-- The global registries of `common/state.py`: one progress dict (modelled
for the download registry) plus the shared `cancelled_tasks` set. -/
structure CoordState where
  tasks : List (String × TaskRec)
  cancelledTasks : List String
  deriving Repr, DecidableEq

/-- `task_id in get_progress(task_type)` / reading a task's entry. -/
def lookupTask (st : CoordState) (tid : String) : Option TaskRec :=
  (st.tasks.find? (fun p => p.1 == tid)).map (·.2)

/-- `common/state.py` `cancel_task`: if the task id is registered — whatever
its status — add it to `cancelled_tasks`, overwrite its status with `failed`
and its error message with `"{task_type.title()} task cancelled by user"`, and
return `True`; otherwise return `False`.  The status of the registered task is
never inspected. -/
def cancel_task (taskTypeTitle : String) (tid : String) (st : CoordState) :
    Bool × CoordState :=
  if (lookupTask st tid).isSome then
    (true,
     { tasks := st.tasks.map fun p =>
         if p.1 == tid then
           (p.1, { p.2 with
                   status := "failed",
                   errorMessage := some (taskTypeTitle ++
                     " task cancelled by user") })
         else p,
       cancelledTasks := tid :: st.cancelledTasks })
  else (false, st)

/-- `main.py` `cancel_download` (the `DELETE /api/download/cancel/{task_id}`
route, `main.py:255-271`): the body opens with
`from common.state import cancel_download_task`, but no `cancel_download_task`
is defined anywhere in the sources — `common/state.py` only defines
`cancel_task` — so the import raises `ImportError` before anything else runs.
The blanket `except Exception as e` converts it (like every other exception,
including the 404 `HTTPException` raised in the `else` arm) into an
`HTTPException` with status 500 and `detail=str(e)`.  Every request therefore
yields the 500 response, for any task id and any registry state; the registry
is never read or modified, and neither the success message nor the 404
"not found or already completed" detail is reachable.  The result is the
HTTP status code paired with the detail string (the `ImportError` text,
quoting elided), plus the untouched registry state. -/
def cancelDownloadRoute (tid : String) (st : CoordState) :
    (Nat × String) × CoordState :=
  ((500, "cannot import name cancel_download_task from common.state"), st)

/-! ## Source file metadata (`common/models.py`) -/

/-- `common/models.py` `FileMetadata` (empty-string timestamps become
`none`). -/
structure FileMetadata where
  url : String
  lastRefreshStartedTimestamp : Option Nat
  lastSizeBytes : Option Nat
  lastRefreshStatus : Option String
  lastRefreshFinishedTimestamp : Option Nat
  deriving Repr, DecidableEq

/-- `Source.update_file_metadata`: create the entry if absent, set the start
timestamp only when requested, and — on every call — set the finish timestamp
and the status (which defaults to `"success"` at the call sites that mark the
start of a refresh). -/
def update_file_metadata (meta : Option FileMetadata) (url : String)
    (sizeBytes : Option Nat) (status : String) (setStartTimestamp : Bool)
    (now : Nat) : FileMetadata :=
  let m := meta.getD ⟨url, none, some 0, none, none⟩
  let m := { m with url := url }
  let m := if setStartTimestamp then
    { m with lastRefreshStartedTimestamp := some now } else m
  let m := { m with
             lastRefreshFinishedTimestamp := some now,
             lastRefreshStatus := some status }
  match sizeBytes with
  | some sz => { m with lastSizeBytes := some sz }
  | none => m

/-- The two `update_file_metadata` calls
`orchestrate_file_download_from_source` makes around a tracked download: the
start-of-refresh call (at `t0`, `set_start_timestamp=True`, status left at its
`"success"` default) and the completion call (at `t1`, with the downloaded
size and the download's terminal status).  Returns both intermediate
states. -/
def orchestrateFileMetadata (meta0 : Option FileMetadata) (url : String)
    (t0 t1 : Nat) (size : Nat) (status : String) :
    FileMetadata × FileMetadata :=
  let m1 := update_file_metadata meta0 url none "success" true t0
  let m2 := update_file_metadata (some m1) url (some size) status false t1
  (m1, m2)

/-! ## Guide (XMLTV/EPG) parsing
(`ingest/epg_parser.py`, `app/services/epg_service.py`)

An XML document is embedded as an element tree.  `element.findall("tag")`
(used by the ingest parser) selects direct children; `root.findall(".//tag")`
(used by the service parser) selects all descendants in document order. -/

/-- An XML element: tag, attribute dict, text, children. -/
inductive Xml where
  | elem (tag : String) (attrs : List (String × String)) (text : Option String)
         (children : List Xml)

/-- The element's tag. -/
def Xml.tag : Xml → String
  | .elem t _ _ _ => t

/-- The element's attribute dict. -/
def Xml.attrs : Xml → List (String × String)
  | .elem _ a _ _ => a

/-- The element's text (`None` when absent). -/
def Xml.text : Xml → Option String
  | .elem _ _ x _ => x

/-- The element's children. -/
def Xml.children : Xml → List Xml
  | .elem _ _ _ cs => cs

/-- `element.find(tag)`: the first direct child with the given tag. -/
def Xml.find (e : Xml) (tag : String) : Option Xml :=
  e.children.find? (fun c => c.tag == tag)

/-- `element.findtext(tag)` (no default): `None` when no such child exists,
the child's text — or `""` when the child has no text — otherwise. -/
def Xml.findtext (e : Xml) (tag : String) : Option String :=
  (e.find tag).map (fun c => c.text.getD "")

mutual
/-- All descendants of an element in document (preorder) order, as
`findall(".//…")` traverses them. -/
def Xml.descendants : Xml → List Xml
  | .elem _ _ _ cs => Xml.descendantsList cs

/-- Descendants of a forest, preorder. -/
def Xml.descendantsList : List Xml → List Xml
  | [] => []
  | c :: rest => c :: (Xml.descendants c ++ Xml.descendantsList rest)
end

/-- `root.findall(".//tag")`: all descendants with the given tag, in document
order. -/
def findallDesc (root : Xml) (tag : String) : List Xml :=
  root.descendants.filter (fun e => e.tag == tag)

/-- `ingest/epg_parser.py` `get_required_text`: the text of a required child,
`ValueError` when the child is missing or its stripped text is empty. -/
def get_required_text (e : Xml) (tag : String) : Except String String :=
  match e.findtext tag with
  | none => .error ("Missing required <" ++ tag ++ ">")
  | some v =>
    if pyStrip v = "" then .error ("Missing required <" ++ tag ++ ">")
    else .ok (pyStrip v)

/-- `ingest/epg_parser.py` `get_required_attr`: a required attribute,
`ValueError` when missing or blank. -/
def get_required_attr (e : Xml) (attr : String) : Except String String :=
  match attrGet e.attrs attr with
  | none => .error ("Missing required attribute " ++ attr)
  | some v =>
    if pyStrip v = "" then .error ("Missing required attribute " ++ attr)
    else .ok (pyStrip v)

/-- `models/models.py` `EpgChannel`. -/
structure EpgChannel where
  source : String
  channel_id : String
  display_name : String
  icon_url : String
  deriving Repr, DecidableEq

/-- One `channel` element of the ingest parser
(`parse_epg_for_channels` loop body): id defaults to `"Unknown"`
(`validate_channel_element`); a missing or blank `display-name` makes the
channel be skipped with a warning (`ValueError` caught per record). -/
def ingestChannelOf (source : String) (e : Xml) : Option EpgChannel :=
  let channel_id := attrGetD e.attrs "id" "Unknown"
  match get_required_text e "display-name" with
  | .error _ => none
  | .ok name =>
    let logo := match e.find "icon" with
      | some ic => pyStrip (attrGetD ic.attrs "src" "")
      | none => ""
    some ⟨source, channel_id, name, logo⟩

/-- `ingest/epg_parser.py` `parse_epg_for_channels`: when the root tag is not
`tv`, log an error and return the empty list — a successful return, not an
exception; otherwise process every `channel` child. -/
def parse_epg_for_channels (root : Xml) (source : String) : List EpgChannel :=
  if root.tag = "tv" then
    (root.children.filter (fun c => c.tag == "channel")).filterMap
      (ingestChannelOf source)
  else []

/-- A loaded program of the ingest parser (`models/models.py` `Program`;
pydantic coerces the numeric timestamp strings to datetimes, modelled as the
epoch number). -/
structure IngProgram where
  source : String
  program_id : String
  channel_id : String
  start_time : Nat
  end_time : Nat
  title : String
  description : String
  deriving Repr, DecidableEq

/-- Pydantic's coercion of the `start_timestamp`/`stop_timestamp` attribute
strings into `datetime` fields: a decimal epoch number parses, anything else
raises a `ValidationError` (a `ValueError`). -/
def pydanticTimestamp (s : String) : Option Nat := s.toNat?

/-- One `programme` element of the ingest parser
(`parse_epg_for_programs` loop body): required attributes and title via the
strict getters, optional description defaulted to `""`, `program_id` derived
as `channel_id + "_" + start_time`; any `ValueError` — including pydantic's
rejection of a non-numeric timestamp — skips the record. -/
def ingestProgramOf (source : String) (e : Xml) : Option IngProgram :=
  match get_required_attr e "channel" with
  | .error _ => none
  | .ok channel_id =>
    match get_required_attr e "start_timestamp" with
    | .error _ => none
    | .ok start_str =>
      match get_required_attr e "stop_timestamp" with
      | .error _ => none
      | .ok end_str =>
        match get_required_text e "title" with
        | .error _ => none
        | .ok title =>
          let description := pyStrip ((e.findtext "desc").getD "")
          match pydanticTimestamp start_str, pydanticTimestamp end_str with
          | some st, some et =>
            some ⟨source, channel_id ++ "_" ++ start_str, channel_id,
                  st, et, title, description⟩
          | _, _ => none

/-- `ingest/epg_parser.py` `parse_epg_for_programs`: when the root tag is not
`tv`, log an error and return the empty list — again a successful return;
otherwise process every `programme` child, skipping invalid records. -/
def parse_epg_for_programs (root : Xml) (source : String) : List IngProgram :=
  if root.tag = "tv" then
    (root.children.filter (fun c => c.tag == "programme")).filterMap
      (ingestProgramOf source)
  else []

/-- A parsed `datetime.strptime(s, "%Y%m%d%H%M%S %z")` value. -/
structure PyDateTime where
  year : Nat
  month : Nat
  day : Nat
  hour : Nat
  minute : Nat
  second : Nat
  offNeg : Bool
  offHour : Nat
  offMin : Nat
  deriving Repr, DecidableEq

/-- The value of a list of decimal digits. -/
def digitsVal (cs : List Char) : Nat :=
  cs.foldl (fun a c => a * 10 + (c.toNat - 48)) 0

/-- Gregorian leap year. -/
def isLeap (y : Nat) : Bool :=
  (y % 4 = 0 && y % 100 ≠ 0) || y % 400 = 0

/-- Days in a month. -/
def daysInMonth (y m : Nat) : Nat :=
  if m = 2 then (if isLeap y then 29 else 28)
  else if m = 4 ∨ m = 6 ∨ m = 9 ∨ m = 11 then 30
  else 31

/-- `datetime.strptime(s, "%Y%m%d%H%M%S %z")` for the provider's
`YYYYMMDDhhmmss ±HHMM` timestamps: fourteen digits, a space, a signed
four-digit offset, with calendar validation; anything else raises
`ValueError` (`none`).  (`%z` also accepts a few other offset spellings; the
guide format at hand uses only this one.) -/
def strptimeXmltv (s : String) : Option PyDateTime :=
  let cs := s.data
  if cs.length = 20 ∧ (cs.take 14).all Char.isDigit ∧ cs.getD 14 'x' = ' ' ∧
      (cs.getD 15 'x' = '+' ∨ cs.getD 15 'x' = '-') ∧
      ((cs.drop 16).all Char.isDigit) then
    let y := digitsVal (cs.take 4)
    let mo := digitsVal ((cs.drop 4).take 2)
    let da := digitsVal ((cs.drop 6).take 2)
    let ho := digitsVal ((cs.drop 8).take 2)
    let mi := digitsVal ((cs.drop 10).take 2)
    let se := digitsVal ((cs.drop 12).take 2)
    let oh := digitsVal ((cs.drop 16).take 2)
    let om := digitsVal ((cs.drop 18).take 2)
    if 1 ≤ y ∧ y ≤ 9999 ∧ 1 ≤ mo ∧ mo ≤ 12 ∧ 1 ≤ da ∧ da ≤ daysInMonth y mo ∧
        ho ≤ 23 ∧ mi ≤ 59 ∧ se ≤ 59 ∧ oh * 60 + om ≤ 1439 then
      some ⟨y, mo, da, ho, mi, se, cs.getD 15 'x' = '-', oh, om⟩
    else none
  else none

/-- `app/services/epg_service.py` `EPGChannelDict`. -/
structure EPGChannelDict where
  channel_id : String
  display_name : String
  icon : Option String
  is_primary : Bool
  source : String
  deriving Repr, DecidableEq

/-- A row of `epg_channel_id_failures.csv`. -/
structure ChanFailRow where
  failed_channel_id : String
  failed_display_name : String
  existing_channel_id : String
  existing_display_name : String
  reason : String
  deriving Repr, DecidableEq

/-- The channel loop of `EPGService.read_and_parse`: first occurrence of an id
with a usable display name is kept (`is_primary=True`), a later occurrence
with a display name is logged as `duplicate`, an element whose display name is
missing or empty is logged as `missing_display_name`.  `seen` mirrors the
`channel_ids` set; the `existing_display_name` looked up for a duplicate is
the first stored entry with the same id (the Python list comprehension's
`[0]`, which exists whenever the id is in `channel_ids`). -/
def svcParseChannelsGo (source : String) :
    List Xml → List EPGChannelDict → List String → List ChanFailRow →
    List EPGChannelDict × List ChanFailRow
  | [], acc, _, rows => (acc, rows)
  | e :: rest, acc, seen, rows =>
    let channel_id := attrGetD e.attrs "id" ""
    match (e.find "display-name").map Xml.text with
    | some (some txt) =>
      if txt ≠ "" then
        if channel_id ∈ seen then
          let existing :=
            (((acc.filter (fun c => c.channel_id == channel_id)).head?).map
              (·.display_name)).getD ""
          svcParseChannelsGo source rest acc seen
            (rows ++ [⟨channel_id, txt, channel_id, existing, "duplicate"⟩])
        else
          let icon := (e.find "icon").bind (fun ic => attrGet ic.attrs "src")
          svcParseChannelsGo source rest
            (acc ++ [⟨channel_id, txt, icon, true, source⟩])
            (channel_id :: seen) rows
      else
        svcParseChannelsGo source rest acc seen
          (rows ++ [⟨channel_id, "", "", "", "missing_display_name"⟩])
    | some none =>
      svcParseChannelsGo source rest acc seen
        (rows ++ [⟨channel_id, "", "", "", "missing_display_name"⟩])
    | none =>
      svcParseChannelsGo source rest acc seen
        (rows ++ [⟨channel_id, "", "", "", "missing_display_name"⟩])

/-- The channel phase of `EPGService.read_and_parse` over the
`.//channel` elements. -/
def svcParseChannels (source : String) (elems : List Xml) :
    List EPGChannelDict × List ChanFailRow :=
  svcParseChannelsGo source elems [] [] []

/-- Whether a `channel` element carries a usable (non-`None`, non-empty)
display name. -/
def hasDisplay (e : Xml) : Bool :=
  match e.find "display-name" with
  | some dn => (dn.text.getD "") ≠ ""
  | none => false

/-- The id the service channel loop reads from an element. -/
def chanIdOf (e : Xml) : String := attrGetD e.attrs "id" ""

/-- The display-name text the service channel loop reads from an element
(empty when the `display-name` child or its text is missing). -/
def displayOf (e : Xml) : String :=
  match e.find "display-name" with
  | some dn => dn.text.getD ""
  | none => ""

/-- The icon `src` attribute the service channel loop stores for a kept
element. -/
def iconOf (e : Xml) : Option String :=
  (e.find "icon").bind (fun ic => attrGet ic.attrs "src")

/-- `app/services/epg_service.py` `EPGProgramDict`. -/
structure EPGProgramDict where
  channel_id : String
  start_time : PyDateTime
  end_time : PyDateTime
  title : String
  description : Option String
  category : Option String
  source : String
  deriving Repr, DecidableEq

/-- A row of `epg_parse_failures.csv` (programme rejections). -/
structure ProgFailRow where
  channel_id : String
  start : String
  stop : String
  title : Option String
  description : Option String
  category : Option String
  reason : String
  deriving Repr, DecidableEq

/-- State of the programme loop of `EPGService.read_and_parse`.  `lastDesc`
and `lastCat` model the Python locals `description`/`category`, assigned only
inside the complete-fields branch but read by the missing-fields rejection
row; before their first assignment they are unbound (`none`) and reading them
raises `UnboundLocalError`. -/
structure SvcProgState where
  progs : List EPGProgramDict
  rows : List ProgFailRow
  lastDesc : Option (Option String)
  lastCat : Option (Option String)
  deriving Repr, DecidableEq

/-- The program the service loop emits for a complete `programme` element
whose two timestamps parse; `none` otherwise. -/
def svcProgramOf (source : String) (e : Xml) : Option EPGProgramDict :=
  let start_str := attrGetD e.attrs "start" ""
  let end_str := attrGetD e.attrs "stop" ""
  let channel_id := attrGetD e.attrs "channel" ""
  match e.find "title" with
  | none => none
  | some tEl =>
    match tEl.text with
    | none => none
    | some tTxt =>
      if start_str ≠ "" ∧ end_str ≠ "" ∧ channel_id ≠ "" then
        match strptimeXmltv start_str, strptimeXmltv end_str with
        | some st, some et =>
          some ⟨channel_id, st, et, tTxt, (e.find "desc").bind Xml.text,
                (e.find "category").bind Xml.text, source⟩
        | _, _ => none
      else none

/-- Whether a `programme` element has all required fields (`start`, `stop`,
`channel` attributes non-empty, a `title` child whose text is not `None`). -/
def progComplete (e : Xml) : Bool :=
  (match e.find "title" with
   | some tEl => tEl.text.isSome
   | none => false) &&
  attrGetD e.attrs "start" "" ≠ "" && attrGetD e.attrs "stop" "" ≠ "" &&
  attrGetD e.attrs "channel" "" ≠ ""

/-- The `bad_datetime` rejection row written for a complete `programme`
element whose timestamp fails `strptime`. -/
def mkBadRow (e : Xml) : ProgFailRow :=
  ⟨attrGetD e.attrs "channel" "", attrGetD e.attrs "start" "",
   attrGetD e.attrs "stop" "", (e.find "title").bind Xml.text,
   (e.find "desc").bind Xml.text, (e.find "category").bind Xml.text,
   "bad_datetime"⟩

/-- `title_elem.text if title_elem else ""` in the missing-fields row: an
`Element` is falsy when it has no children, so the text is written only for a
title element that has sub-elements. -/
def pyTitleField (t : Option Xml) : Option String :=
  match t with
  | some tEl => if tEl.children.isEmpty then some "" else tEl.text
  | none => some ""

/-- The `missing_fields` rejection row; `d`/`c` are the current values of the
`description`/`category` locals. -/
def missingFieldsRow (e : Xml) (d c : Option String) : ProgFailRow :=
  ⟨attrGetD e.attrs "channel" "", attrGetD e.attrs "start" "",
   attrGetD e.attrs "stop" "", pyTitleField (e.find "title"), d, c,
   "missing_fields"⟩

/-- One iteration of the programme loop of `EPGService.read_and_parse`. -/
def svcProgStep (source : String) (st : SvcProgState) (e : Xml) :
    Except String SvcProgState :=
  let start_str := attrGetD e.attrs "start" ""
  let end_str := attrGetD e.attrs "stop" ""
  let channel_id := attrGetD e.attrs "channel" ""
  let missing : Except String SvcProgState :=
    match st.lastDesc, st.lastCat with
    | some d, some c =>
      .ok { st with rows := st.rows ++ [missingFieldsRow e d c] }
    | _, _ => .error "UnboundLocalError: description"
  match e.find "title" with
  | none => missing
  | some tEl =>
    match tEl.text with
    | none => missing
    | some tTxt =>
      if start_str ≠ "" ∧ end_str ≠ "" ∧ channel_id ≠ "" then
        let description := (e.find "desc").bind Xml.text
        let category := (e.find "category").bind Xml.text
        match strptimeXmltv start_str, strptimeXmltv end_str with
        | some st_t, some et_t =>
          .ok { st with
                progs := st.progs ++
                  [⟨channel_id, st_t, et_t, tTxt, description, category,
                    source⟩],
                lastDesc := some description, lastCat := some category }
        | _, _ =>
          .ok { st with
                rows := st.rows ++
                  [⟨channel_id, start_str, end_str, some tTxt, description,
                    category, "bad_datetime"⟩],
                lastDesc := some description, lastCat := some category }
      else missing

/-- The programme loop of `EPGService.read_and_parse`. -/
def svcParseProgramsGo (source : String) :
    List Xml → SvcProgState → Except String SvcProgState
  | [], st => .ok st
  | e :: rest, st =>
    match svcProgStep source st e with
    | .ok st' => svcParseProgramsGo source rest st'
    | .error m => .error m

/-- The programme phase of `EPGService.read_and_parse` over the
`.//programme` elements: parsed programs plus the rejection rows, or the
escaping exception. -/
def svcParsePrograms (source : String) (elems : List Xml) :
    Except String (List EPGProgramDict × List ProgFailRow) :=
  (svcParseProgramsGo source elems ⟨[], [], none, none⟩).map
    fun st => (st.progs, st.rows)

/-- `EPGService.read_and_parse`: the channel phase over `.//channel` followed
by the programme phase over `.//programme`; no root-tag check is made. -/
def svcReadAndParse (root : Xml) (source : String) :
    Except String ((List EPGChannelDict × List ChanFailRow) ×
      (List EPGProgramDict × List ProgFailRow)) :=
  (svcParsePrograms source (findallDesc root "programme")).map
    fun pr => (svcParseChannels source (findallDesc root "channel"), pr)

/-- A well-formed `programme` element (concrete test datum). -/
def sampleGoodProgramme : Xml :=
  .elem "programme"
    [("start", "20250702070000 +0000"), ("stop", "20250702110000 +0000"),
     ("channel", "c1")] none [.elem "title" [] (some "T") []]

/-- The same `programme` element with a non-numeric `start` timestamp
(concrete test datum). -/
def sampleBadProgramme : Xml :=
  .elem "programme"
    [("start", "garbage"), ("stop", "20250702110000 +0000"),
     ("channel", "c1")] none [.elem "title" [] (some "T") []]

lemma svcParseM3uGo_invariant (lines : List SvcLine) :
    ∀ (st st' : SvcM3uState), svcParseM3uGo lines st = .ok st' →
    (∀ c ∈ st.channels, c.channel_id ≠ "") →
    (∀ c, st.current = some c → c.channel_id ≠ "") →
    (∀ c ∈ st'.channels, c.channel_id ≠ "") ∧
    st'.badLog.length = st.badLog.length + lines.countP missingId ∧
    (∀ r ∈ st'.badLog, r ∈ st.badLog ∨ r.reason = "missing_channel_id") := by
  induction lines with
  | nil =>
    intro st st' h hch hcur
    simp only [svcParseM3uGo, Except.ok.injEq] at h
    subst h
    simpa using ⟨hch, fun r hr => Or.inl hr⟩
  | cons l rest ih =>
    intro st st' h hch hcur
    cases l with
    | extinf attrs =>
      rcases hid : attrGet attrs "tvg-id" with _ | cid
      · simp only [svcParseM3uGo, hid] at h
        rcases hg : st.lastGroup with _ | g
        · rw [hg] at h; exact absurd h (by simp)
        · rw [hg] at h
          obtain ⟨h1, h2, h3⟩ := ih _ _ h (by simpa using hch) (by simpa using hcur)
          refine ⟨h1, ?_, ?_⟩
          · simp [List.countP_cons, missingId, hid] at h2 ⊢; omega
          · intro r hr
            rcases h3 r hr with hmem | hreason
            · simp only [List.mem_append, List.mem_singleton] at hmem
              rcases hmem with hm | hm
              · exact Or.inl hm
              · exact Or.inr (by rw [hm])
            · exact Or.inr hreason
      · by_cases hc : cid = ""
        · subst hc
          simp only [svcParseM3uGo, hid, ne_eq, not_true_eq_false, if_false] at h
          rcases hg : st.lastGroup with _ | g
          · rw [hg] at h; exact absurd h (by simp)
          · rw [hg] at h
            obtain ⟨h1, h2, h3⟩ := ih _ _ h (by simpa using hch) (by simpa using hcur)
            refine ⟨h1, ?_, ?_⟩
            · simp [List.countP_cons, missingId, hid] at h2 ⊢; omega
            · intro r hr
              rcases h3 r hr with hmem | hreason
              · simp only [List.mem_append, List.mem_singleton] at hmem
                rcases hmem with hm | hm
                · exact Or.inl hm
                · exact Or.inr (by rw [hm])
              · exact Or.inr hreason
        · simp only [svcParseM3uGo, hid, ne_eq, hc, not_false_eq_true, if_true] at h
          obtain ⟨h1, h2, h3⟩ := ih _ _ h (by simpa using hch)
            (by intro c hcu; simp at hcu; rw [← hcu]; simpa using hc)
          refine ⟨h1, ?_, h3⟩
          simp [List.countP_cons, missingId, hid, hc] at h2 ⊢; omega
    | url u =>
      rcases hcu : st.current with _ | c
      · simp only [svcParseM3uGo, hcu] at h
        obtain ⟨h1, h2, h3⟩ := ih _ _ h hch (by simp [hcu])
        exact ⟨h1, by simpa [List.countP_cons, missingId] using h2, h3⟩
      · simp only [svcParseM3uGo, hcu] at h
        obtain ⟨h1, h2, h3⟩ := ih _ _ h
          (by
            intro x hx
            simp only [List.mem_append, List.mem_singleton] at hx
            rcases hx with hx | hx
            · exact hch x hx
            · rw [hx]; exact hcur c hcu)
          (by simp)
        exact ⟨h1, by simpa [List.countP_cons, missingId] using h2, h3⟩
    | extinfNoComma =>
      simp only [svcParseM3uGo] at h
      obtain ⟨h1, h2, h3⟩ := ih _ _ h hch hcur
      exact ⟨h1, by simpa [List.countP_cons, missingId] using h2, h3⟩
    | skip =>
      simp only [svcParseM3uGo] at h
      obtain ⟨h1, h2, h3⟩ := ih _ _ h hch hcur
      exact ⟨h1, by simpa [List.countP_cons, missingId] using h2, h3⟩
    | other =>
      simp only [svcParseM3uGo] at h
      obtain ⟨h1, h2, h3⟩ := ih _ _ h hch hcur
      exact ⟨h1, by simpa [List.countP_cons, missingId] using h2, h3⟩

/-- C1, counterexample.  The ingest playlist parser (`ingest/m3u_parser.py`,
`parse_m3u` with `validate_m3u_channel`) does assign a synthesized fallback
identifier: on the playlist `#EXTINF:-1,Foo` / `http://stream` — one entry with
no `tvg-id` attribute — the entry is returned (not excluded, not logged) with
the channel name `"Foo"` as its identifier. -/
theorem c1_ingest_fallback_counterexample :
    ingestParseM3u [.extinf [] "Foo", .url "http://stream"] "src1" =
      [{ source := "src1", tvg_id := "Foo", name := "Foo",
         stream_url := "http://stream", logo_url := none, group := none }] := by
  rfl

/-- C1 (amended): in the service playlist parser (`M3UService.parse_m3u`),
whenever the parse completes, every `#EXTINF` entry lacking a `tvg-id` is
excluded from the returned channel list (every returned channel carries a
non-empty identifier) and contributes exactly one rejected-entry row, every
rejection row carrying reason `missing_channel_id`; the ingest parser
(`validate_m3u_channel`) instead assigns the channel name as a synthesized
fallback identifier and keeps the entry. -/
theorem c1_missing_channel_id (lines : List SvcLine) (cs : List ChannelDict)
    (bl : List BadChannelRow) (h : svcParseM3u lines = .ok (cs, bl)) :
    ((∀ c ∈ cs, c.channel_id ≠ "") ∧
      bl.length = lines.countP missingId ∧
      (∀ r ∈ bl, r.reason = "missing_channel_id")) ∧
    (∀ (attrs : List (String × String)) (nm u : String),
      attrGet attrs "tvg-id" = none → pyStrip u ≠ "" →
      ∃ ch, validate_m3u_channel attrs nm (some u) = some ch ∧ ch.tvg_id = nm) := by
  constructor
  · have hrun : ∃ st', svcParseM3uGo lines ⟨[], none, [], none⟩ = .ok st' ∧
        st'.channels = cs ∧ st'.badLog = bl := by
      unfold svcParseM3u at h
      rcases hgo : svcParseM3uGo lines ⟨[], none, [], none⟩ with e | st'
      · rw [hgo] at h; exact absurd h (by simp [Except.map])
      · rw [hgo] at h
        simp only [Except.map, Except.ok.injEq, Prod.mk.injEq] at h
        exact ⟨st', rfl, h.1, h.2⟩
    obtain ⟨st', hgo, hcs, hbl⟩ := hrun
    obtain ⟨h1, h2, h3⟩ := svcParseM3uGo_invariant lines _ _ hgo (by simp) (by simp)
    subst hcs; subst hbl
    exact ⟨h1, by simpa using h2, fun r hr => by
      rcases h3 r hr with hmem | hreason
      · simp at hmem
      · exact hreason⟩
  · intro attrs nm u hid hu
    have htr : pyStrip "" = "" := rfl
    simp only [validate_m3u_channel]
    rw [if_neg hu]
    refine ⟨_, rfl, ?_⟩
    simp [attrGetD, hid, htr]

/-- C1 witness: a playlist with one entry carrying `tvg-id="a1"` and one entry
lacking it parses to one accepted channel and one `missing_channel_id`
rejection row. -/
theorem c1_missing_channel_id_witness :
    (svcParseM3u
        [.extinf [("tvg-id", "a1"), ("tvg-name", "A")], .url "http://a",
         .extinf [("tvg-name", "B")], .url "http://b"] =
      .ok ([{ channel_id := "a1", name := "A", url := "http://a",
              group := "Uncategorized", logo := none,
              is_missing := false, is_favorite := false }],
           [{ name := "B", group := "Uncategorized",
              reason := "missing_channel_id" }])) ∧
    (∀ c ∈ [({ channel_id := "a1", name := "A", url := "http://a",
               group := "Uncategorized", logo := none,
               is_missing := false, is_favorite := false } : ChannelDict)],
       c.channel_id ≠ "") := by
  have h : svcParseM3u
      [.extinf [("tvg-id", "a1"), ("tvg-name", "A")], .url "http://a",
       .extinf [("tvg-name", "B")], .url "http://b"] =
      .ok ([{ channel_id := "a1", name := "A", url := "http://a",
              group := "Uncategorized", logo := none,
              is_missing := false, is_favorite := false }],
           [{ name := "B", group := "Uncategorized",
              reason := "missing_channel_id" }]) := by rfl
  exact ⟨h, ((c1_missing_channel_id _ _ _ h).1).1⟩

lemma upsertM3uChannel_status (now : Nat) (tbl : List M3uRow) (c : M3uChannel) :
    (upsertM3uChannel now tbl c).2 = upsertedResult c := by
  unfold upsertM3uChannel sqliteUpsertM3u
  split <;> simp [upsertedResult]

lemma upsertM3uChannel_table_notMem (now : Nat) (tbl : List M3uRow)
    (c : M3uChannel) (h : ∀ r ∈ tbl, r.key ≠ c.key) :
    (upsertM3uChannel now tbl c).1 = tbl ++ [newM3uRow now c] := by
  have hk : hasKey tbl c.key = false := by
    simp only [hasKey, List.any_eq_false]
    intro r hr
    simpa using h r hr
  unfold upsertM3uChannel sqliteUpsertM3u
  simp [hk]

lemma upsertM3uChannel_table_mem (now : Nat) (pre mid : List M3uRow)
    (r0 : M3uRow) (c : M3uChannel) (hr0 : r0.key = c.key)
    (hpre : ∀ r ∈ pre, r.key ≠ c.key) (hmid : ∀ r ∈ mid, r.key ≠ c.key) :
    (upsertM3uChannel now (pre ++ r0 :: mid) c).1 =
      pre ++ updM3uRow now c r0 :: mid := by
  have hk : hasKey (pre ++ r0 :: mid) c.key = true := by
    simp only [hasKey, List.any_eq_true]
    exact ⟨r0, by simp, by simp [hr0]⟩
  unfold upsertM3uChannel sqliteUpsertM3u
  simp only [hk, if_true, gt_iff_lt, Nat.zero_lt_one, if_pos]
  rw [List.map_append, List.map_cons, if_pos hr0]
  congr 1
  · exact List.map_congr_left (fun r hr => if_neg (hpre r hr)) |>.trans
      (by simp)
  · congr 1
    exact List.map_congr_left (fun r hr => if_neg (hmid r hr)) |>.trans
      (by simp)

/-- First load into a table disjoint from the feed's keys: every record is
inserted in feed order. -/
lemma loadM3uChannels_insert (now : Nat) :
    ∀ (chs : List M3uChannel) (tbl : List M3uRow),
    (∀ c ∈ chs, ∀ r ∈ tbl, r.key ≠ c.key) →
    (chs.map M3uChannel.key).Nodup →
    loadM3uChannels now tbl chs =
      (tbl ++ chs.map (newM3uRow now), chs.map upsertedResult) := by
  intro chs
  induction chs with
  | nil => intro tbl _ _; simp [loadM3uChannels]
  | cons c rest ih =>
    intro tbl hdisj hnd
    have htbl : (upsertM3uChannel now tbl c).1 = tbl ++ [newM3uRow now c] :=
      upsertM3uChannel_table_notMem now tbl c (hdisj c (by simp))
    have hnd2 : (∀ x ∈ rest, ¬x.key = c.key) ∧
        (rest.map M3uChannel.key).Nodup := by simpa using hnd
    have hnd' : (rest.map M3uChannel.key).Nodup := hnd2.2
    have hdisj' : ∀ c' ∈ rest, ∀ r ∈ tbl ++ [newM3uRow now c], r.key ≠ c'.key := by
      intro c' hc' r hr
      rcases List.mem_append.mp hr with hr | hr
      · exact hdisj c' (by simp [hc']) r hr
      · simp only [List.mem_singleton] at hr
        subst hr
        have : c.key ≠ c'.key := fun hkey => hnd2.1 c' hc' hkey.symm
        simpa [newM3uRow, M3uRow.key, M3uChannel.key] using this
    simp only [loadM3uChannels, htbl, upsertM3uChannel_status,
      ih (tbl ++ [newM3uRow now c]) hdisj' hnd', List.map_cons]
    simp

/-- Second load over the rows the first load produced: every record hits its
own row and rewrites it in place (same content, fresh `updated_at`). -/
lemma loadM3uChannels_update (t1 t2 : Nat) :
    ∀ (chs : List M3uChannel) (pre : List M3uRow),
    (∀ c ∈ chs, ∀ r ∈ pre, r.key ≠ c.key) →
    (chs.map M3uChannel.key).Nodup →
    loadM3uChannels t2 (pre ++ chs.map (newM3uRow t1)) chs =
      (pre ++ chs.map (fun c => updM3uRow t2 c (newM3uRow t1 c)),
       chs.map upsertedResult) := by
  intro chs
  induction chs with
  | nil => intro pre _ _; simp [loadM3uChannels]
  | cons c rest ih =>
    intro pre hdisj hnd
    have hknew : ∀ c' : M3uChannel, (newM3uRow t1 c').key = c'.key := by
      intro c'; rfl
    have hnd2 : (∀ x ∈ rest, ¬x.key = c.key) ∧
        (rest.map M3uChannel.key).Nodup := by simpa using hnd
    have hcrest : ∀ c' ∈ rest, c.key ≠ c'.key :=
      fun c' hc' hkey => hnd2.1 c' hc' hkey.symm
    have htbl :
        (upsertM3uChannel t2 (pre ++ newM3uRow t1 c :: rest.map (newM3uRow t1)) c).1 =
          pre ++ updM3uRow t2 c (newM3uRow t1 c) :: rest.map (newM3uRow t1) := by
      apply upsertM3uChannel_table_mem t2 pre (rest.map (newM3uRow t1))
        (newM3uRow t1 c) c (hknew c)
      · intro r hr; exact hdisj c (by simp) r hr
      · intro r hr
        obtain ⟨c', hc', hrc⟩ := List.mem_map.mp hr
        rw [← hrc, hknew c']
        exact fun hkey => hcrest c' hc' hkey.symm
    have hdisj' : ∀ c' ∈ rest, ∀ r ∈ pre ++ [updM3uRow t2 c (newM3uRow t1 c)],
        r.key ≠ c'.key := by
      intro c' hc' r hr
      rcases List.mem_append.mp hr with hr | hr
      · exact hdisj c' (by simp [hc']) r hr
      · simp only [List.mem_singleton] at hr
        subst hr
        simpa [updM3uRow, newM3uRow, M3uRow.key, M3uChannel.key] using hcrest c' hc'
    have hnd' : (rest.map M3uChannel.key).Nodup := hnd2.2
    have step := ih (pre ++ [updM3uRow t2 c (newM3uRow t1 c)]) hdisj' hnd'
    simp only [loadM3uChannels, List.map_cons, htbl, upsertM3uChannel_status]
    rw [show pre ++ updM3uRow t2 c (newM3uRow t1 c) :: rest.map (newM3uRow t1) =
      (pre ++ [updM3uRow t2 c (newM3uRow t1 c)]) ++ rest.map (newM3uRow t1) by simp]
    rw [step]
    simp

/-- C2, counterexample.  Loading the same one-record feed twice: the second
run's only `LoadResult` has outcome `upserted`, not `skipped`, because the
SQLite `ON CONFLICT DO UPDATE` upsert reports one changed row even when the
stored content is identical. -/
theorem c2_second_load_not_skipped_counterexample :
    (loadM3uChannels 1
        (loadM3uChannels 0 [] [⟨"s", "id1", "Chan", "http://u", none, none⟩]).1
        [⟨"s", "id1", "Chan", "http://u", none, none⟩]).2.map LoadResult.status =
      ["upserted"] ∧ ("upserted" : String) ≠ "skipped" := by
  constructor
  · rfl
  · decide

/-- C2 (amended): loading a parsed feed with pairwise distinct upsert keys
twice is idempotent on row content — the first load stores exactly the parsed
records, the second load leaves every stored row's content (all columns except
`updated_at`) unchanged — but every `LoadResult` of both runs has outcome
`upserted`: a record whose upsert changes zero content still counts one
changed row in SQLite, so the `skipped` branch of `_upsert_m3u_channel` is
unreachable. -/
theorem c2_reload_idempotent (chs : List M3uChannel) (t1 t2 : Nat)
    (hnd : (chs.map M3uChannel.key).Nodup) :
    (loadM3uChannels t1 [] chs).1.map M3uRow.content =
        chs.map (fun c => (newM3uRow t1 c).content) ∧
    (∀ r ∈ (loadM3uChannels t1 [] chs).2, r.status = "upserted") ∧
    (loadM3uChannels t2 (loadM3uChannels t1 [] chs).1 chs).1.map M3uRow.content =
        (loadM3uChannels t1 [] chs).1.map M3uRow.content ∧
    (∀ r ∈ (loadM3uChannels t2 (loadM3uChannels t1 [] chs).1 chs).2,
        r.status = "upserted") ∧
    (∀ (now : Nat) (tbl : List M3uRow) (c : M3uChannel),
        (upsertM3uChannel now tbl c).2.status ≠ "skipped") := by
  have h1 := loadM3uChannels_insert t1 chs [] (by simp) hnd
  have h2 := loadM3uChannels_update t1 t2 chs [] (by simp) hnd
  simp only [List.nil_append] at h1 h2
  refine ⟨?_, ?_, ?_, ?_, ?_⟩
  · rw [h1]; simp
  · rw [h1]
    intro r hr
    obtain ⟨c, _, hrc⟩ := List.mem_map.mp hr
    rw [← hrc]; rfl
  · rw [h1, h2]
    simp only [List.map_map]
    apply List.map_congr_left
    intro c _
    rfl
  · rw [h1, h2]
    intro r hr
    obtain ⟨c, _, hrc⟩ := List.mem_map.mp hr
    rw [← hrc]; rfl
  · intro now tbl c
    rw [upsertM3uChannel_status]
    simp [upsertedResult]

/-- C2 witness: the two-record feed of the spec's concrete scenario, loaded
twice. -/
theorem c2_reload_idempotent_witness :
    ((([⟨"s", "a1", "A", "http://a", none, none⟩,
        ⟨"s", "b2", "B", "http://b", none, none⟩] :
          List M3uChannel).map M3uChannel.key).Nodup) ∧
    (∀ r ∈ (loadM3uChannels 7
        (loadM3uChannels 3 []
          [⟨"s", "a1", "A", "http://a", none, none⟩,
           ⟨"s", "b2", "B", "http://b", none, none⟩]).1
        [⟨"s", "a1", "A", "http://a", none, none⟩,
         ⟨"s", "b2", "B", "http://b", none, none⟩]).2,
      r.status = "upserted") := by
  have hnd : ((([⟨"s", "a1", "A", "http://a", none, none⟩,
      ⟨"s", "b2", "B", "http://b", none, none⟩] :
        List M3uChannel).map M3uChannel.key).Nodup) := by
    decide
  exact ⟨hnd, (c2_reload_idempotent _ 3 7 hnd).2.2.2.1⟩

lemma downloadLoop_success (events : List DlEvent) :
    ∀ (st : DlState) (d b : Nat) (st' : DlState),
    downloadLoop events st d = (st', .success b) →
    st'.file = st.file.map (· ++ nzChunks events) ∧
    b = d + (nzChunks events).sum := by
  induction events with
  | nil =>
    intro st d b st' h
    simp only [downloadLoop, Prod.mk.injEq, DlOutcome.success.injEq] at h
    obtain ⟨h1, h2⟩ := h
    subst h1; subst h2
    cases st.file <;> simp [nzChunks]
  | cons e rest ih =>
    intro st d b st' h
    cases e with
    | cancelSignal =>
      simp only [downloadLoop] at h
      obtain ⟨h1, h2⟩ := ih _ _ _ _ h
      exact ⟨by simpa [cancelTaskEffect, nzChunks] using h1,
             by simpa [nzChunks] using h2⟩
    | chunk sz =>
      by_cases hc : st.cancelled
      · simp [downloadLoop, hc] at h
      · by_cases hsz : sz = 0
        · subst hsz
          simp only [downloadLoop, hc, if_false, ne_eq, not_true_eq_false,
            if_true, if_neg] at h
          obtain ⟨h1, h2⟩ := ih _ _ _ _ (by simpa using h)
          exact ⟨by simpa [nzChunks] using h1, by simpa [nzChunks] using h2⟩
        · simp only [downloadLoop, hc, if_false, ne_eq, hsz,
            not_false_eq_true, if_true] at h
          obtain ⟨h1, h2⟩ := ih _ _ _ _ (by simpa using h)
          constructor
          · rw [h1]
            simp only [Option.map_map, nzChunks, ne_eq, hsz,
              not_false_eq_true, if_true]
            cases st.file <;> simp
          · rw [h2]
            simp only [nzChunks, ne_eq, hsz, not_false_eq_true, if_true,
              List.sum_cons]
            omega
    | netErr m => simp [downloadLoop] at h

lemma downloadLoop_failed (events : List DlEvent) :
    ∀ (st : DlState) (d : Nat) (st' : DlState),
    downloadLoop events st d = (st', .failed) →
    st'.task.errorMessage ≠ none := by
  induction events with
  | nil => intro st d st' h; simp [downloadLoop] at h
  | cons e rest ih =>
    intro st d st' h
    cases e with
    | cancelSignal => exact ih _ _ _ (by simpa [downloadLoop] using h)
    | chunk sz =>
      by_cases hc : st.cancelled
      · simp [downloadLoop, hc] at h
      · by_cases hsz : sz = 0
        · subst hsz
          exact ih _ _ _ (by simpa [downloadLoop, hc] using h)
        · exact ih _ _ _ (by simpa [downloadLoop, hc, hsz] using h)
    | netErr m =>
      simp only [downloadLoop, Prod.mk.injEq] at h
      rw [← h.1]
      simp

lemma downloadLoop_cancelled (events : List DlEvent) :
    ∀ (st : DlState) (d : Nat) (st' : DlState),
    st.task.startedAt ≤ st.time →
    downloadLoop events st d = (st', .cancelled) →
    st'.file = none ∧ st'.task.status = "cancelled" ∧
    ∃ t, st'.task.completedAt = some t ∧ st'.task.startedAt ≤ t := by
  induction events with
  | nil => intro st d st' _ h; simp [downloadLoop] at h
  | cons e rest ih =>
    intro st d st' hst h
    cases e with
    | cancelSignal =>
      simp only [downloadLoop] at h
      exact ih (cancelTaskEffect st) d st'
        (by simpa [cancelTaskEffect] using hst) h
    | chunk sz =>
      by_cases hc : st.cancelled
      · simp only [downloadLoop, hc, if_true, Prod.mk.injEq] at h
        rw [← h.1]
        exact ⟨rfl, rfl, st.time, rfl, hst⟩
      · by_cases hsz : sz = 0
        · subst hsz
          simp only [downloadLoop, hc, if_false, ne_eq, not_true_eq_false] at h
          exact ih st d st' hst (by simpa using h)
        · simp only [downloadLoop, hc, Bool.false_eq_true, if_false, ne_eq,
            hsz, not_false_eq_true, if_true] at h
          exact ih _ (d + sz) st' (by simpa using Nat.le_succ_of_le hst) h
    | netErr m => simp [downloadLoop] at h

lemma downloadLoop_cancel_observed (mid : List DlEvent) :
    ∀ (st : DlState) (d sz : Nat) (post : List DlEvent),
    st.cancelled = true → (∀ m, DlEvent.netErr m ∉ mid) →
    (downloadLoop (mid ++ DlEvent.chunk sz :: post) st d).2 = .cancelled := by
  induction mid with
  | nil =>
    intro st d sz post hc _
    simp [downloadLoop, hc]
  | cons e rest ih =>
    intro st d sz post hc hne
    cases e with
    | cancelSignal =>
      simp only [List.cons_append, downloadLoop]
      exact ih (cancelTaskEffect st) d sz post (by simp [cancelTaskEffect])
        (fun m hm => hne m (by simp [hm]))
    | chunk sz' => simp [downloadLoop, hc]
    | netErr m =>
      exact absurd (show DlEvent.netErr m ∈ DlEvent.netErr m :: rest by simp)
        (hne m)

lemma downloadLoop_cancelSignal_then_chunk (pre : List DlEvent) :
    ∀ (st : DlState) (d : Nat) (mid : List DlEvent) (sz : Nat)
      (post : List DlEvent),
    (∀ m, DlEvent.netErr m ∉ pre) → (∀ m, DlEvent.netErr m ∉ mid) →
    (downloadLoop (pre ++ DlEvent.cancelSignal :: mid ++ DlEvent.chunk sz :: post)
        st d).2 = .cancelled := by
  induction pre with
  | nil =>
    intro st d mid sz post _ hmid
    simp only [List.nil_append, downloadLoop]
    exact downloadLoop_cancel_observed mid (cancelTaskEffect st) d sz post
      (by simp [cancelTaskEffect]) hmid
  | cons e rest ih =>
    intro st d mid sz post hpre hmid
    cases e with
    | cancelSignal =>
      simp only [List.cons_append, downloadLoop]
      exact ih (cancelTaskEffect st) d mid sz post
        (fun m hm => hpre m (by simp [hm])) hmid
    | chunk sz' =>
      by_cases hc : st.cancelled
      · simp [downloadLoop, hc]
      · by_cases hsz : sz' = 0
        · subst hsz
          simp only [List.cons_append, downloadLoop, hc, if_false, ne_eq,
            not_true_eq_false]
          simpa using ih st d mid sz post
            (fun m hm => hpre m (by simp [hm])) hmid
        · simp only [List.cons_append, downloadLoop, hc, if_false, ne_eq, hsz,
            not_false_eq_true, if_true]
          exact ih _ (d + sz') mid sz post
            (fun m hm => hpre m (by simp [hm])) hmid
    | netErr m =>
      exact absurd (show DlEvent.netErr m ∈ DlEvent.netErr m :: rest by simp)
        (hpre m)

lemma streamDownloadGo_spec (sev : List SdEvent) :
    ∀ acc : List Nat,
    ((streamDownloadGo sev acc).2 = false → (streamDownloadGo sev acc).1 = none) ∧
    ((streamDownloadGo sev acc).2 = true →
      (streamDownloadGo sev acc).1 = some (acc ++ sdChunks sev)) := by
  induction sev with
  | nil => intro acc; simp [streamDownloadGo, sdChunks]
  | cons e rest ih =>
    intro acc
    cases e with
    | chunk sz =>
      simp only [streamDownloadGo, sdChunks]
      obtain ⟨h1, h2⟩ := ih (acc ++ [sz])
      exact ⟨h1, fun h => by rw [h2 h]; simp⟩
    | err m => simp [streamDownloadGo]

lemma streamDownload_spec (sev : List SdEvent) :
    ((streamDownload sev).2 = false → (streamDownload sev).1 = none) ∧
    ((streamDownload sev).2 = true →
      (streamDownload sev).1 = some (sdChunks sev)) := by
  have := streamDownloadGo_spec sev []
  simpa [streamDownload] using this

lemma find?_cancelMap (l : List (String × TaskRec)) (tid : String)
    (f : TaskRec → TaskRec) :
    ((l.map fun p => if p.1 == tid then (p.1, f p.2) else p).find?
        (fun p => p.1 == tid)).map (·.2) =
      ((l.find? (fun p => p.1 == tid)).map (·.2)).map f := by
  induction l with
  | nil => rfl
  | cons p t ih =>
    cases hp : (p.1 == tid) with
    | true => simp [List.find?, hp]
    | false => simpa [List.find?, hp] using ih

lemma downloadLoop_trace_chain (events : List DlEvent) :
    ∀ (st : DlState) (d : Nat),
    List.Chain' (· ≤ ·) (st.trace ++ [d]) →
    List.Chain' (· ≤ ·) ((downloadLoop events st d).1.trace) := by
  induction events with
  | nil =>
    intro st d h
    exact (List.chain'_append.mp h).1
  | cons e rest ih =>
    intro st d h
    cases e with
    | cancelSignal => exact ih _ _ (by simpa [cancelTaskEffect] using h)
    | chunk sz =>
      by_cases hc : st.cancelled
      · simp only [downloadLoop, hc, if_true]
        exact (List.chain'_append.mp h).1
      · by_cases hsz : sz = 0
        · subst hsz
          simpa [downloadLoop, hc] using ih _ _ h
        · simp only [downloadLoop, hc, if_false, ne_eq, hsz,
            not_false_eq_true, if_true]

          apply ih
          show List.Chain' (· ≤ ·) ((st.trace ++ [d + sz]) ++ [d + sz])
          rw [List.chain'_append] at h ⊢
          refine ⟨?_, by simp, ?_⟩
          · rw [List.chain'_append]
            refine ⟨h.1, by simp, ?_⟩
            intro x hx y hy
            simp only [List.head?_cons, Option.mem_def, Option.some.injEq] at hy
            subst hy
            have := h.2.2 x hx d (by simp)
            omega
          · intro x hx y hy
            simp only [List.getLast?_concat, Option.mem_def,
              Option.some.injEq, List.head?_cons] at hx hy
            omega
    | netErr m =>
      simp only [downloadLoop]
      exact (List.chain'_append.mp h).1

lemma chain'_le_of_head_le {y x : Nat} {l : List Nat}
    (h : List.Chain' (· ≤ ·) (x :: l)) (hxy : y ≤ x) :
    List.Chain' (· ≤ ·) (y :: l) := by
  cases l with
  | nil => simp
  | cons b t =>
    rw [List.chain'_cons] at h ⊢
    exact ⟨le_trans hxy h.1, h.2⟩

lemma loaderItemTrace_chain (k : Nat) :
    ∀ c : Nat, List.Chain' (· ≤ ·) (c :: loaderItemTrace k c) := by
  induction k with
  | zero => intro c; simp [loaderItemTrace]
  | succ k ih =>
    intro c
    by_cases h50 : (c + 1) % 50 = 0
    · simp only [loaderItemTrace, h50, if_true]
      cases hl : loaderItemTrace k (c + 1) with
      | nil => simp
      | cons b t =>
        rw [List.chain'_cons]
        refine ⟨by omega, ?_⟩
        rw [← hl]
        exact ih (c + 1)
    · simp only [loaderItemTrace, h50, if_false]
      exact chain'_le_of_head_le (ih (c + 1)) (by omega)

/-- C3, counterexample.  A transport error after the first 5-byte chunk:
`download_file_with_progress` records the error message and returns the
failure outcome, but the partial destination file (one 5-byte chunk) is still
present — contradicting "no file remains at destination_path" and the
"file exists iff success" biconditional. -/
theorem c3_partial_file_on_failure_counterexample :
    (downloadFileWithProgress true 10 none "src"
        [.chunk 5, .netErr "connection broken"] (initDlState 0 1)).2 =
      DlOutcome.failed ∧
    (downloadFileWithProgress true 10 none "src"
        [.chunk 5, .netErr "connection broken"] (initDlState 0 1)).1.file =
      some [5] ∧
    (downloadFileWithProgress true 10 none "src"
        [.chunk 5, .netErr "connection broken"] (initDlState 0 1)).1.task.errorMessage =
      some "connection broken" ∧
    some [5] ≠ (none : Option (List Nat)) := by
  refine ⟨rfl, rfl, rfl, by simp⟩

/-- C3 (amended): on any failure outcome the error message is recorded on the
task, but the partial destination file is removed only on cancellation, not on
failure; on success the file holds exactly the streamed chunks.  The service
downloader `stream_download` (`app/common/download_helper.py`), in contrast,
does delete the file on any error: after it, a file exists at the output path
iff the download succeeded. -/
theorem c3_failure_file_semantics (t0 n : Nat) (urlOk : Bool) (cl : Nat)
    (fb : Option Nat) (item : String) (events : List DlEvent) :
    ((downloadFileWithProgress urlOk cl fb item events (initDlState t0 n)).2 =
        .failed →
      (downloadFileWithProgress urlOk cl fb item events
          (initDlState t0 n)).1.task.errorMessage ≠ none) ∧
    ((downloadFileWithProgress urlOk cl fb item events (initDlState t0 n)).2 =
        .cancelled →
      (downloadFileWithProgress urlOk cl fb item events
          (initDlState t0 n)).1.file = none) ∧
    (∀ b, (downloadFileWithProgress urlOk cl fb item events
          (initDlState t0 n)).2 = .success b →
      (downloadFileWithProgress urlOk cl fb item events
          (initDlState t0 n)).1.file = some (nzChunks events) ∧
      b = (nzChunks events).sum) ∧
    (∀ sev : List SdEvent,
      ((streamDownload sev).2 = false → (streamDownload sev).1 = none) ∧
      ((streamDownload sev).2 = true →
        (streamDownload sev).1 = some (sdChunks sev))) := by
  by_cases hu : urlOk
  · subst hu
    rcases hr : downloadFileWithProgress true cl fb item events (initDlState t0 n)
      with ⟨st', out⟩
    have hloop : downloadLoop events
        ⟨⟨"downloading", some item, n, 0, 0,
          (if cl = 0 then fb.getD 0 else cl), none, t0, none⟩,
         some [], false, t0, []⟩ 0 = (st', out) := hr
    refine ⟨?_, ?_, ?_, streamDownload_spec⟩
    · intro hout
      subst hout
      exact downloadLoop_failed events _ _ _ hloop
    · intro hout
      subst hout
      exact (downloadLoop_cancelled events _ _ _ (by exact Nat.le_refl _) hloop).1
    · intro b hout
      subst hout
      obtain ⟨h1, h2⟩ := downloadLoop_success events _ _ _ _ hloop
      exact ⟨by simpa using h1, by simpa using h2⟩
  · simp only [Bool.not_eq_true] at hu
    subst hu
    refine ⟨fun _ => by simp [downloadFileWithProgress], ?_, ?_,
      streamDownload_spec⟩
    · intro hout
      simp [downloadFileWithProgress] at hout
    · intro b hout
      simp [downloadFileWithProgress] at hout

/-- C3 witness: a successful one-chunk download leaves exactly that chunk at
the destination, and a failed `stream_download` leaves no file. -/
theorem c3_failure_file_semantics_witness :
    (downloadFileWithProgress true 10 none "it" [.chunk 4]
        (initDlState 0 1)).1.file = some (nzChunks [.chunk 4]) ∧
    (streamDownload [.chunk 5, .err "boom"]).1 = none := by
  have h := c3_failure_file_semantics 0 1 true 10 none "it" [.chunk 4]
  exact ⟨(h.2.2.1 4 rfl).1, (h.2.2.2 [.chunk 5, .err "boom"]).1 rfl⟩

/-- C4, counterexample.  A cancellation that arrives after the first chunk is
honoured by the downloader (outcome `cancelled`), but the task's final status
after the enclosing background runner finishes is `completed` (single-source
runner) resp. `failed` (multi-source runner) — not `cancelled`: both runners
overwrite the status the downloader set. -/
theorem c4_final_status_counterexample :
    (downloadFileWithProgress true 10 none "src"
        [.chunk 2, .cancelSignal, .chunk 3] (initDlState 0 1)).2 =
      DlOutcome.cancelled ∧
    (backgroundSingleDownloadTask true 10 none "src"
        [.chunk 2, .cancelSignal, .chunk 3] (initDlState 0 1)).task.status =
      "completed" ∧
    (backgroundDownloadTask [⟨true, 10, none, "src",
        [.chunk 2, .cancelSignal, .chunk 3]⟩] (initDlState 0 1)).task.status =
      "failed" ∧
    ("completed" : String) ≠ "cancelled" := by
  refine ⟨rfl, rfl, rfl, by simp⟩

/-- C4 (amended): when the cancel signal arrives mid-transfer and a further
chunk boundary is reached (no transport error intervening), the downloader
stops at that boundary: the outcome is `cancelled`, the partial destination
file is deleted, and the task — as `download_file_with_progress` retur: the
enclosing background runners later overwrite it — is `cancelled` with
`completed_at` not earlier than `started_at`. -/
theorem c4_cancel_mid_transfer (t0 n cl : Nat) (fb : Option Nat) (item : String)
    (pre mid post : List DlEvent) (sz : Nat)
    (hpre : ∀ m, DlEvent.netErr m ∉ pre) (hmid : ∀ m, DlEvent.netErr m ∉ mid) :
    (downloadFileWithProgress true cl fb item
        (pre ++ DlEvent.cancelSignal :: mid ++ DlEvent.chunk sz :: post)
        (initDlState t0 n)).2 = .cancelled ∧
    (downloadFileWithProgress true cl fb item
        (pre ++ DlEvent.cancelSignal :: mid ++ DlEvent.chunk sz :: post)
        (initDlState t0 n)).1.file = none ∧
    (downloadFileWithProgress true cl fb item
        (pre ++ DlEvent.cancelSignal :: mid ++ DlEvent.chunk sz :: post)
        (initDlState t0 n)).1.task.status = "cancelled" ∧
    ∃ t, (downloadFileWithProgress true cl fb item
        (pre ++ DlEvent.cancelSignal :: mid ++ DlEvent.chunk sz :: post)
        (initDlState t0 n)).1.task.completedAt = some t ∧
      (downloadFileWithProgress true cl fb item
        (pre ++ DlEvent.cancelSignal :: mid ++ DlEvent.chunk sz :: post)
        (initDlState t0 n)).1.task.startedAt ≤ t := by
  rcases hr : downloadFileWithProgress true cl fb item
      (pre ++ DlEvent.cancelSignal :: mid ++ DlEvent.chunk sz :: post)
      (initDlState t0 n) with ⟨st', out⟩
  have hloop : downloadLoop
      (pre ++ DlEvent.cancelSignal :: mid ++ DlEvent.chunk sz :: post)
      ⟨⟨"downloading", some item, n, 0, 0,
        (if cl = 0 then fb.getD 0 else cl), none, t0, none⟩,
       some [], false, t0, []⟩ 0 = (st', out) := hr
  have hout : out = .cancelled := by
    have := downloadLoop_cancelSignal_then_chunk pre
      ⟨⟨"downloading", some item, n, 0, 0,
        (if cl = 0 then fb.getD 0 else cl), none, t0, none⟩,
       some [], false, t0, []⟩ 0 mid sz post hpre hmid
    rw [hloop] at this
    exact this
  subst hout
  obtain ⟨h1, h2, h3⟩ :=
    downloadLoop_cancelled _ _ _ _ (by exact Nat.le_refl _) hloop
  exact ⟨rfl, h1, h2, h3⟩

/-- C4 witness: one 2-byte chunk, then the cancel signal, then the chunk
boundary at which the downloader stops. -/
theorem c4_cancel_mid_transfer_witness :
    (downloadFileWithProgress true 10 none "src"
        ([.chunk 2] ++ DlEvent.cancelSignal :: [] ++ DlEvent.chunk 3 :: [])
        (initDlState 0 1)).1.file = none := by
  exact (c4_cancel_mid_transfer 0 1 10 none "src" [.chunk 2] [] [] 3
    (by intro m hm; simp at hm) (by intro m hm; simp at hm)).2.1

/-- C5, counterexample.  `cancel_task` on a task whose status is already
terminal (`completed`) returns `True` — not the "not found / already
completed" failure — and overwrites the terminal status with `failed`:
`common/state.py` never inspects the status of a registered task. -/
theorem c5_cancel_terminal_counterexample :
    (cancel_task "Download" "t1"
        ⟨[("t1", ⟨"completed", none, 1, 1, 10, 10, none, 0, some 5⟩)], []⟩).1 =
      true ∧
    lookupTask (cancel_task "Download" "t1"
        ⟨[("t1", ⟨"completed", none, 1, 1, 10, 10, none, 0, some 5⟩)], []⟩).2
        "t1" =
      some ⟨"failed", none, 1, 1, 10, 10,
            some "Download task cancelled by user", 0, some 5⟩ ∧
    ("failed" : String) ≠ "completed" := by
  refine ⟨rfl, rfl, by simp⟩

/-- C5 (amended): `cancel_task` reports failure exactly when the task id is
not registered at all; for any registered task — terminal or not — it
returns `True`, adds the id to the cancelled set, and overwrites the status
with `failed` and a cancellation message.  No invalid-transition error
exists anywhere in the interface.  The HTTP route `cancel_download` itself
can return neither the success message nor the 404 "not found or already
completed" detail: its `from common.state import cancel_download_task`
raises `ImportError` (the function is defined nowhere), which the blanket
`except Exception` turns into a 500 response for every request, leaving the
registry untouched. -/
theorem c5_cancel_semantics (ttl tid : String) (st : CoordState) :
    (lookupTask st tid = none → cancel_task ttl tid st = (false, st)) ∧
    (∀ t, lookupTask st tid = some t →
      (cancel_task ttl tid st).1 = true ∧
      lookupTask (cancel_task ttl tid st).2 tid =
        some { t with
               status := "failed",
               errorMessage := some (ttl ++ " task cancelled by user") } ∧
      tid ∈ (cancel_task ttl tid st).2.cancelledTasks) ∧
    (∀ tid' st', cancelDownloadRoute tid' st' =
      ((500, "cannot import name cancel_download_task from common.state"),
       st')) := by
  refine ⟨?_, ?_, ?_⟩
  · intro h
    simp [cancel_task, h]
  · intro t h
    have hs : (lookupTask st tid).isSome = true := by simp [h]
    refine ⟨by simp [cancel_task, hs], ?_, by simp [cancel_task, hs]⟩
    have hct : cancel_task ttl tid st = (true,
        ⟨st.tasks.map fun p =>
          if p.1 == tid then
            (p.1, { p.2 with
                    status := "failed",
                    errorMessage := some (ttl ++ " task cancelled by user") })
          else p,
         tid :: st.cancelledTasks⟩) := by
      simp only [cancel_task, hs, if_true]
    rw [hct]
    simp only [lookupTask]
    have hmap := find?_cancelMap st.tasks tid (fun x =>
      { x with
        status := "failed",
        errorMessage := some (ttl ++ " task cancelled by user") })
    have hlt : ((st.tasks.find? (fun p => p.1 == tid)).map (·.2)) = some t := h
    rw [hlt] at hmap
    simp only [Option.map_some'] at hmap
    exact hmap
  · intro tid' st'
    rfl

/-- C5 witness: an unregistered task id makes `cancel_task` report failure; a
registered `completed` task is "cancelled" with success; the HTTP route
answers a concrete request with the 500 `ImportError` response. -/
theorem c5_cancel_semantics_witness :
    cancel_task "Download" "missing" ⟨[], []⟩ = (false, ⟨[], []⟩) ∧
    (cancel_task "Download" "t1"
        ⟨[("t1", ⟨"completed", none, 1, 1, 10, 10, none, 0, some 5⟩)], []⟩).1 =
      true ∧
    (cancelDownloadRoute "t1" ⟨[], []⟩).1.1 = 500 := by
  obtain ⟨hA, hB, hC⟩ := c5_cancel_semantics "Download" "t1"
    ⟨[("t1", ⟨"completed", none, 1, 1, 10, 10, none, 0, some 5⟩)], []⟩
  exact ⟨(c5_cancel_semantics "Download" "missing" ⟨[], []⟩).1 rfl,
    (hB ⟨"completed", none, 1, 1, 10, 10, none, 0, some 5⟩ rfl).1,
    by rw [hC "t1" ⟨[], []⟩]⟩

/-- C6, counterexample.  The start-of-refresh call
`source.update_file_metadata(download_type, url, set_start_timestamp=True)` —
made before the download runs, while the refresh is in flight — already
assigns `last_refresh_status` (its default, `success`) and sets the finished
timestamp equal to the started one. -/
theorem c6_inflight_status_counterexample :
    (orchestrateFileMetadata none "http://u" 5 9 42 "failed").1.lastRefreshStatus =
      some "success" ∧
    (orchestrateFileMetadata none "http://u" 5 9 42
        "failed").1.lastRefreshFinishedTimestamp = some 5 ∧
    (orchestrateFileMetadata none "http://u" 5 9 42
        "failed").1.lastRefreshStartedTimestamp = some 5 ∧
    some "success" ≠ (none : Option String) := by
  refine ⟨rfl, rfl, rfl, by simp⟩

/-- C6 (amended): `update_file_metadata` assigns `last_refresh_status` and the
finished timestamp on *every* call — including the in-flight start-of-refresh
call, where the status takes its `success` default and started = finished —
and after the completion call the metadata carries the download's terminal
status with `last_refresh_started ≤ last_refresh_finished` (given a
non-decreasing clock). -/
theorem c6_metadata_timestamps (meta0 : Option FileMetadata) (url : String)
    (t0 t1 size : Nat) (status : String) (h : t0 ≤ t1) :
    (orchestrateFileMetadata meta0 url t0 t1 size status).1.lastRefreshStatus =
      some "success" ∧
    (orchestrateFileMetadata meta0 url t0 t1 size
        status).1.lastRefreshStartedTimestamp = some t0 ∧
    (orchestrateFileMetadata meta0 url t0 t1 size
        status).1.lastRefreshFinishedTimestamp = some t0 ∧
    (orchestrateFileMetadata meta0 url t0 t1 size status).2.lastRefreshStatus =
      some status ∧
    (orchestrateFileMetadata meta0 url t0 t1 size
        status).2.lastRefreshStartedTimestamp = some t0 ∧
    (orchestrateFileMetadata meta0 url t0 t1 size
        status).2.lastRefreshFinishedTimestamp = some t1 ∧
    (∀ a b, (orchestrateFileMetadata meta0 url t0 t1 size
          status).2.lastRefreshStartedTimestamp = some a →
      (orchestrateFileMetadata meta0 url t0 t1 size
          status).2.lastRefreshFinishedTimestamp = some b → a ≤ b) := by
  refine ⟨?_, ?_, ?_, ?_, ?_, ?_, ?_⟩ <;>
    simp [orchestrateFileMetadata, update_file_metadata]
  exact h

/-- C6 witness: the orchestrated pair of metadata updates at times 5 ≤ 9. -/
theorem c6_metadata_timestamps_witness :
    (5 : Nat) ≤ 9 ∧
    (orchestrateFileMetadata none "http://u" 5 9 42
        "cancelled").2.lastRefreshFinishedTimestamp = some 9 := by
  exact ⟨by omega,
    (c6_metadata_timestamps none "http://u" 5 9 42 "cancelled" (by omega)).2.2.2.2.2.1⟩

/-- C7, counterexample.  A multi-source download task (two sources, 5 bytes
then 3 bytes): the observed `bytes_downloaded` sequence over the task's
lifetime is `[5, 3]` — it decreases before the task reaches a terminal state,
because `download_file_with_progress` restarts its byte counter at zero for
each file of the same task. -/
theorem c7_bytes_reset_counterexample :
    (backgroundDownloadTask
        [⟨true, 5, none, "s1", [.chunk 5]⟩, ⟨true, 3, none, "s2", [.chunk 3]⟩]
        (initDlState 0 2)).trace = [5, 3] ∧
    (backgroundDownloadTask
        [⟨true, 5, none, "s1", [.chunk 5]⟩, ⟨true, 3, none, "s2", [.chunk 3]⟩]
        (initDlState 0 2)).task.status = "completed" ∧
    ¬ List.Chain' (· ≤ ·) [5, 3] := by
  refine ⟨rfl, rfl, ?_⟩
  intro h
  have := (List.chain'_cons.mp h).1
  omega

/-- C7 (amended): within a single file transfer the successive
`bytes_downloaded` values are non-decreasing, and the `completed_items`
sequence an ingest load task exposes is non-decreasing; only across the file
boundaries of a multi-source download task does `bytes_downloaded` restart
from zero. -/
theorem c7_monotonic_progress (t0 n : Nat) (urlOk : Bool) (cl : Nat)
    (fb : Option Nat) (item : String) (events : List DlEvent) (m : Nat) :
    List.Chain' (· ≤ ·)
      ((downloadFileWithProgress urlOk cl fb item events
          (initDlState t0 n)).1.trace) ∧
    List.Chain' (· ≤ ·) (ingestItemsTrace m) := by
  constructor
  · by_cases hu : urlOk
    · subst hu
      have : downloadFileWithProgress true cl fb item events (initDlState t0 n) =
          downloadLoop events
            ⟨⟨"downloading", some item, n, 0, 0,
              (if cl = 0 then fb.getD 0 else cl), none, t0, none⟩,
             some [], false, t0, []⟩ 0 := rfl
      rw [this]
      exact downloadLoop_trace_chain events _ 0 (by simp)
    · simp only [Bool.not_eq_true] at hu
      subst hu
      simp [downloadFileWithProgress, initDlState]
  · exact loaderItemTrace_chain m 0

/-- C8, counterexample.  A guide file whose root tag is `wrongroot` but which
contains a perfectly valid `channel` element: both ingest guide parses return
the empty list as a *successful* result — no exception, no error value — even
though the same content under a `tv` root yields one channel.  The wrong root
is not surfaced as a parse failure. -/
theorem c8_wrong_root_counterexample :
    parse_epg_for_channels
        (.elem "wrongroot" [] none
          [.elem "channel" [("id", "c1")] none
            [.elem "display-name" [] (some "Chan One") []]]) "s" = [] ∧
    parse_epg_for_programs
        (.elem "wrongroot" [] none
          [.elem "channel" [("id", "c1")] none
            [.elem "display-name" [] (some "Chan One") []]]) "s" = [] ∧
    parse_epg_for_channels
        (.elem "tv" [] none
          [.elem "channel" [("id", "c1")] none
            [.elem "display-name" [] (some "Chan One") []]]) "s" =
      [⟨"s", "c1", "Chan One", ""⟩] := by
  refine ⟨rfl, rfl, rfl⟩

/-- C8 (amended): a guide file whose root element is not `tv` yields no
channels and no programs from the ingest parsers — but the failure is only
logged: both functions return an empty list as a normal, successful result,
indistinguishable to callers from an empty guide, rather than raising a parse
failure. -/
theorem c8_wrong_root_empty (root : Xml) (source : String)
    (h : root.tag ≠ "tv") :
    parse_epg_for_channels root source = [] ∧
    parse_epg_for_programs root source = [] := by
  constructor <;> simp [parse_epg_for_channels, parse_epg_for_programs, h]

/-- C8 witness: the wrong-root file with a valid channel inside. -/
theorem c8_wrong_root_empty_witness :
    parse_epg_for_channels
      (.elem "wrongroot" [] none
        [.elem "channel" [("id", "c1")] none
          [.elem "display-name" [] (some "Chan One") []]]) "s" = [] := by
  exact (c8_wrong_root_empty _ "s" (by simp [Xml.tag])).1

lemma svcProgStep_ok (source : String) (st : SvcProgState) (e : Xml)
    (p : EPGProgramDict) (hc : progComplete e = true)
    (hp : svcProgramOf source e = some p) :
    svcProgStep source st e = .ok
      { st with progs := st.progs ++ [p],
                lastDesc := some ((e.find "desc").bind Xml.text),
                lastCat := some ((e.find "category").bind Xml.text) } := by
  simp only [progComplete, Bool.and_eq_true] at hc
  obtain ⟨⟨⟨ht, hs⟩, he⟩, hch⟩ := hc
  rcases hft : e.find "title" with _ | tEl
  · rw [hft] at ht; simp at ht
  · rw [hft] at ht
    have ht' : tEl.text.isSome = true := by simpa using ht
    rcases htx : tEl.text with _ | tTxt
    · rw [htx] at ht'; simp at ht'
    · simp only [decide_eq_true_eq] at hs he hch
      simp only [svcProgStep, hft, htx]
      rw [if_pos ⟨hs, he, hch⟩]
      simp only [svcProgramOf, hft, htx] at hp
      rw [if_pos ⟨hs, he, hch⟩] at hp
      rcases hst : strptimeXmltv (attrGetD e.attrs "start" "") with _ | st_t
      · rcases het : strptimeXmltv (attrGetD e.attrs "stop" "") with _ | et_t
        · rw [hst, het] at hp; simp at hp
        · rw [hst, het] at hp; simp at hp
      · rcases het : strptimeXmltv (attrGetD e.attrs "stop" "") with _ | et_t
        · rw [hst, het] at hp; simp at hp
        · rw [hst, het] at hp
          simp only [Option.some.injEq] at hp
          simp only [hst, het]
          simp [hp]

lemma svcProgStep_bad (source : String) (st : SvcProgState) (e : Xml)
    (hc : progComplete e = true) (hp : svcProgramOf source e = none) :
    svcProgStep source st e = .ok
      { st with rows := st.rows ++ [mkBadRow e],
                lastDesc := some ((e.find "desc").bind Xml.text),
                lastCat := some ((e.find "category").bind Xml.text) } := by
  simp only [progComplete, Bool.and_eq_true] at hc
  obtain ⟨⟨⟨ht, hs⟩, he⟩, hch⟩ := hc
  rcases hft : e.find "title" with _ | tEl
  · rw [hft] at ht; simp at ht
  · rw [hft] at ht
    have ht' : tEl.text.isSome = true := by simpa using ht
    rcases htx : tEl.text with _ | tTxt
    · rw [htx] at ht'; simp at ht'
    · simp only [decide_eq_true_eq] at hs he hch
      simp only [svcProgStep, hft, htx]
      rw [if_pos ⟨hs, he, hch⟩]
      simp only [svcProgramOf, hft, htx] at hp
      rw [if_pos ⟨hs, he, hch⟩] at hp
      rcases hst : strptimeXmltv (attrGetD e.attrs "start" "") with _ | st_t
      · rcases het : strptimeXmltv (attrGetD e.attrs "stop" "") with _ | et_t
        · simp only [hst, het]
          simp [mkBadRow, hft, Option.some_bind, htx]
        · simp only [hst, het]
          simp [mkBadRow, hft, Option.some_bind, htx]
      · rcases het : strptimeXmltv (attrGetD e.attrs "stop" "") with _ | et_t
        · simp only [hst, het]
          simp [mkBadRow, hft, Option.some_bind, htx]
        · rw [hst, het] at hp
          simp at hp

lemma svcParseProgramsGo_complete (source : String) (elems : List Xml) :
    ∀ st : SvcProgState, (∀ e ∈ elems, progComplete e = true) →
    ∃ st', svcParseProgramsGo source elems st = .ok st' ∧
      st'.progs = st.progs ++ elems.filterMap (svcProgramOf source) ∧
      st'.rows = st.rows ++
        (elems.filter fun e => (svcProgramOf source e).isNone).map mkBadRow := by
  induction elems with
  | nil => intro st _; exact ⟨st, rfl, by simp, by simp⟩
  | cons e rest ih =>
    intro st hcomp
    rcases hp : svcProgramOf source e with _ | p
    · have hstep := svcProgStep_bad source st e (hcomp e (by simp)) hp
      obtain ⟨st', hrun, h1, h2⟩ := ih _ (fun e' he' => hcomp e' (by simp [he']))
      refine ⟨st', ?_, ?_, ?_⟩
      · simp only [svcParseProgramsGo, hstep]
        exact hrun
      · rw [h1]
        simp [List.filterMap_cons, hp]
      · rw [h2]
        simp [List.filter_cons, hp]
    · have hstep := svcProgStep_ok source st e p (hcomp e (by simp)) hp
      obtain ⟨st', hrun, h1, h2⟩ := ih _ (fun e' he' => hcomp e' (by simp [he']))
      refine ⟨st', ?_, ?_, ?_⟩
      · simp only [svcParseProgramsGo, hstep]
        exact hrun
      · rw [h1]
        simp [List.filterMap_cons, hp]
      · rw [h2]
        simp [List.filter_cons, hp]

lemma length_filterMap_of_isSome {α β : Type} (f : α → Option β) :
    ∀ l : List α, (∀ e ∈ l, (f e).isSome) → (l.filterMap f).length = l.length := by
  intro l
  induction l with
  | nil => intro _; rfl
  | cons a t ih =>
    intro h
    have ha := h a (by simp)
    rcases hfa : f a with _ | b
    · rw [hfa] at ha; simp at ha
    · simp [List.filterMap_cons, hfa, ih (fun e he => h e (by simp [he]))]

/-- C9: in the service guide parser (`EPGService.read_and_parse`), a guide
file whose `programme` elements are 999 valid ones and exactly one — anywhere
among them — that is complete but has a malformed timestamp parses to exactly
999 programs, the valid elements entirely unaffected (in order), and records
exactly one rejection row, with reason `bad_datetime`, for the malformed
element. -/
theorem c9_one_bad_datetime (source : String) (pre post : List Xml) (bad : Xml)
    (hpre : ∀ e ∈ pre, (svcProgramOf source e).isSome)
    (hpost : ∀ e ∈ post, (svcProgramOf source e).isSome)
    (hcomp : ∀ e ∈ pre ++ bad :: post, progComplete e = true)
    (hbad : svcProgramOf source bad = none)
    (hlen : pre.length + post.length = 999) :
    ∃ progs rows,
      svcParsePrograms source (pre ++ bad :: post) = .ok (progs, rows) ∧
      progs = pre.filterMap (svcProgramOf source) ++
        post.filterMap (svcProgramOf source) ∧
      progs.length = 999 ∧
      rows = [mkBadRow bad] ∧
      (mkBadRow bad).reason = "bad_datetime" := by
  obtain ⟨st', hrun, h1, h2⟩ :=
    svcParseProgramsGo_complete source (pre ++ bad :: post) ⟨[], [], none, none⟩
      hcomp
  have hsplit : (pre ++ bad :: post).filterMap (svcProgramOf source) =
      pre.filterMap (svcProgramOf source) ++
        post.filterMap (svcProgramOf source) := by
    simp only [List.filterMap_append, List.filterMap_cons, hbad]
  refine ⟨st'.progs, st'.rows, ?_, ?_, ?_, ?_, rfl⟩
  · simp only [svcParsePrograms, hrun, Except.map]
  · rw [h1, hsplit]
    simp
  · rw [h1, hsplit]
    simp only [List.nil_append, List.length_append]
    rw [length_filterMap_of_isSome _ pre hpre,
      length_filterMap_of_isSome _ post hpost]
    exact hlen
  · rw [h2]
    have hfpre : pre.filter (fun e => (svcProgramOf source e).isNone) = [] := by
      rw [List.filter_eq_nil_iff]
      intro e he
      simp only [Option.isNone_iff_eq_none]
      exact Option.isSome_iff_ne_none.mp (hpre e he)
    have hfpost : post.filter (fun e => (svcProgramOf source e).isNone) = [] := by
      rw [List.filter_eq_nil_iff]
      intro e he
      simp only [Option.isNone_iff_eq_none]
      exact Option.isSome_iff_ne_none.mp (hpost e he)
    simp only [List.filter_append, List.filter_cons, hbad, hfpre, hfpost]
    simp

set_option maxRecDepth 4000 in
/-- C9 witness: 999 copies of a valid programme followed by one with a
non-numeric `start` timestamp. -/
theorem c9_one_bad_datetime_witness :
    ∃ progs rows,
      svcParsePrograms "s"
          (List.replicate 999 sampleGoodProgramme ++ sampleBadProgramme :: []) =
        .ok (progs, rows) ∧
      progs.length = 999 ∧ rows = [mkBadRow sampleBadProgramme] ∧
      (mkBadRow sampleBadProgramme).reason = "bad_datetime" := by
  obtain ⟨progs, rows, h1, _, h3, h4, h5⟩ :=
    c9_one_bad_datetime "s" (List.replicate 999 sampleGoodProgramme) []
      sampleBadProgramme
      (fun e he => by rw [List.eq_of_mem_replicate he]; rfl)
      (fun e he => by simp at he)
      (fun e he => by
        rcases List.mem_append.mp he with he | he
        · rw [List.eq_of_mem_replicate he]; rfl
        · simp only [List.mem_cons, List.not_mem_nil, or_false] at he
          rw [he]; rfl)
      (by rfl)
      (by simp [List.length_replicate])
  exact ⟨progs, rows, h1, h3, h4, h5⟩

/-- C10, counterexample.  Two `channel` elements with the same id where the
second has no display name: the second never appears in the returned list
(true), but it is logged with reason `missing_display_name`, not `duplicate` —
the duplicates log receives nothing, so "every later channel element with an
already-seen channel_id is appended to the duplicates log with reason
duplicate" fails. -/
theorem c10_duplicate_log_counterexample :
    (svcParseChannels "s"
        [.elem "channel" [("id", "X")] none
          [.elem "display-name" [] (some "A") []],
         .elem "channel" [("id", "X")] none []]).2.map ChanFailRow.reason =
      ["missing_display_name"] ∧
    (svcParseChannels "s"
        [.elem "channel" [("id", "X")] none
          [.elem "display-name" [] (some "A") []],
         .elem "channel" [("id", "X")] none []]).1 =
      [⟨"X", "A", none, true, "s"⟩] ∧
    ("missing_display_name" : String) ≠ "duplicate" := by
  refine ⟨rfl, rfl, by simp⟩

lemma svcParseChannelsGo_invariant (source : String) (elems : List Xml) :
    ∀ (acc : List EPGChannelDict) (seen : List String)
      (rows : List ChanFailRow) (cs : List EPGChannelDict)
      (frows : List ChanFailRow),
    svcParseChannelsGo source elems acc seen rows = (cs, frows) →
    (∀ i, i ∈ seen ↔ i ∈ acc.map EPGChannelDict.channel_id) →
    (acc.map EPGChannelDict.channel_id).Nodup →
    (∀ c ∈ acc, c.is_primary = true) →
    (cs.map EPGChannelDict.channel_id).Nodup ∧
    (∀ c ∈ cs, c.is_primary = true) ∧
    (∀ row ∈ frows, row ∈ rows ∨ row.reason = "duplicate" ∨
      row.reason = "missing_display_name") ∧
    cs.length + frows.length = acc.length + rows.length + elems.length ∧
    (∀ e ∈ elems, hasDisplay e = true →
      chanIdOf e ∈ cs.map EPGChannelDict.channel_id) ∧
    (∀ i ∈ acc.map EPGChannelDict.channel_id,
      i ∈ cs.map EPGChannelDict.channel_id) := by
  induction elems with
  | nil =>
    intro acc seen rows cs frows h hseen hnd hprim
    simp only [svcParseChannelsGo, Prod.mk.injEq] at h
    obtain ⟨h1, h2⟩ := h
    subst h1; subst h2
    exact ⟨hnd, hprim, fun r hr => Or.inl hr, by simp, by simp,
      fun i hi => hi⟩
  | cons e rest ih =>
    intro acc seen rows cs frows h hseen hnd hprim
    rcases hdn : (e.find "display-name").map Xml.text with _ | otxt
    · simp only [svcParseChannelsGo, hdn] at h
      obtain ⟨h1, h2, h3, h4, h5, h6⟩ := ih _ _ _ _ _ h hseen hnd hprim
      refine ⟨h1, h2, ?_, by
        simp only [List.length_append, List.length_cons, List.length_singleton,
          List.length_nil] at h4 ⊢
        omega, ?_, h6⟩
      · intro r hr
        rcases h3 r hr with hmem | hres
        · simp only [List.mem_append, List.mem_singleton] at hmem
          rcases hmem with hm | hm
          · exact Or.inl hm
          · subst hm; simp
        · exact Or.inr hres
      · intro e' he' hd
        rcases List.mem_cons.mp he' with he' | he'
        · rw [he'] at hd
          exfalso
          simp only [hasDisplay] at hd
          rcases hf : e.find "display-name" with _ | dn
          · rw [hf] at hd; simp at hd
          · rw [hf] at hdn; simp at hdn
        · exact h5 e' he' hd
    · rcases otxt with _ | txt
      · simp only [svcParseChannelsGo, hdn] at h
        obtain ⟨h1, h2, h3, h4, h5, h6⟩ := ih _ _ _ _ _ h hseen hnd hprim
        refine ⟨h1, h2, ?_, by
          simp only [List.length_append, List.length_cons, List.length_singleton,
            List.length_nil] at h4 ⊢
          omega, ?_, h6⟩
        · intro r hr
          rcases h3 r hr with hmem | hres
          · simp only [List.mem_append, List.mem_singleton] at hmem
            rcases hmem with hm | hm
            · exact Or.inl hm
            · subst hm; simp
          · exact Or.inr hres
        · intro e' he' hd
          rcases List.mem_cons.mp he' with he' | he'
          · rw [he'] at hd
            exfalso
            rcases hf : e.find "display-name" with _ | dn
            · rw [hf] at hdn; simp at hdn
            · rw [hf] at hdn
              simp only [Option.map_some', Option.some.injEq] at hdn
              have hd' : (dn.text.getD "") ≠ "" := by
                simpa [hasDisplay, hf] using hd
              rw [hdn] at hd'
              simp at hd'
          · exact h5 e' he' hd
      · by_cases htxt : txt = ""
        · subst htxt
          simp only [svcParseChannelsGo, hdn, ne_eq, not_true_eq_false,
            if_false] at h
          obtain ⟨h1, h2, h3, h4, h5, h6⟩ := ih _ _ _ _ _ h hseen hnd hprim
          refine ⟨h1, h2, ?_, by
            simp only [List.length_append, List.length_cons, List.length_singleton,
              List.length_nil] at h4 ⊢
            omega, ?_, h6⟩
          · intro r hr
            rcases h3 r hr with hmem | hres
            · simp only [List.mem_append, List.mem_singleton] at hmem
              rcases hmem with hm | hm
              · exact Or.inl hm
              · subst hm; simp
            · exact Or.inr hres
          · intro e' he' hd
            rcases List.mem_cons.mp he' with he' | he'
            · rw [he'] at hd
              exfalso
              rcases hf : e.find "display-name" with _ | dn
              · rw [hf] at hdn; simp at hdn
              · rw [hf] at hdn
                simp only [Option.map_some', Option.some.injEq] at hdn
                have hd' : (dn.text.getD "") ≠ "" := by
                  simpa [hasDisplay, hf] using hd
                rw [hdn] at hd'
                simp at hd'
            · exact h5 e' he' hd
        · by_cases hmem : attrGetD e.attrs "id" "" ∈ seen
          · simp only [svcParseChannelsGo, hdn, ne_eq, htxt,
              not_false_eq_true, if_true, hmem] at h
            obtain ⟨h1, h2, h3, h4, h5, h6⟩ := ih _ _ _ _ _ h hseen hnd hprim
            refine ⟨h1, h2, ?_, by
              simp only [List.length_append, List.length_cons, List.length_singleton,
                List.length_nil] at h4 ⊢
              omega, ?_, h6⟩
            · intro r hr
              rcases h3 r hr with hm | hres
              · simp only [List.mem_append, List.mem_singleton] at hm
                rcases hm with hm | hm
                · exact Or.inl hm
                · subst hm; simp
              · exact Or.inr hres
            · intro e' he' hd
              rcases List.mem_cons.mp he' with he' | he'
              · rw [he']
                exact h6 _ ((hseen _).mp hmem)
              · exact h5 e' he' hd
          · simp only [svcParseChannelsGo, hdn, ne_eq, htxt,
              not_false_eq_true, if_true, hmem, if_false] at h
            have hseen' : ∀ i, i ∈ attrGetD e.attrs "id" "" :: seen ↔
                i ∈ (acc ++ [({ channel_id := attrGetD e.attrs "id" "", display_name := txt, icon := (e.find "icon").bind (fun ic => attrGet ic.attrs "src"), is_primary := true, source := source } : EPGChannelDict)]).map EPGChannelDict.channel_id := by
              intro i
              simp only [List.mem_cons, List.map_append, List.mem_append,
                List.map_cons, List.map_nil, List.mem_singleton]
              constructor
              · intro hi
                rcases hi with hi | hi
                · right; simp [hi]
                · left; exact (hseen i).mp hi
              · intro hi
                rcases hi with hi | hi
                · right; exact (hseen i).mpr hi
                · left; simpa using hi
            have hnd' : ((acc ++ [({ channel_id := attrGetD e.attrs "id" "", display_name := txt, icon := (e.find "icon").bind (fun ic => attrGet ic.attrs "src"), is_primary := true, source := source } : EPGChannelDict)]).map EPGChannelDict.channel_id).Nodup := by
              simp only [List.map_append, List.map_cons, List.map_nil]
              rw [List.nodup_append]
              refine ⟨hnd, by simp, ?_⟩
              intro i hi hi2
              simp only [List.mem_singleton] at hi2
              subst hi2
              exact hmem ((hseen _).mpr hi)
            have hprim' : ∀ c ∈ acc ++ [({ channel_id := attrGetD e.attrs "id" "", display_name := txt, icon := (e.find "icon").bind (fun ic => attrGet ic.attrs "src"), is_primary := true, source := source } : EPGChannelDict)], c.is_primary = true := by
              intro c hc
              rcases List.mem_append.mp hc with hc | hc
              · exact hprim c hc
              · simp only [List.mem_singleton] at hc
                subst hc; rfl
            obtain ⟨h1, h2, h3, h4, h5, h6⟩ := ih _ _ _ _ _ h hseen' hnd' hprim'
            refine ⟨h1, h2, h3, by
              simp only [List.length_append, List.length_cons, List.length_singleton,
                List.length_nil] at h4 ⊢
              omega, ?_, ?_⟩
            · intro e' he' hd
              rcases List.mem_cons.mp he' with he' | he'
              · rw [he']
                apply h6
                simp [chanIdOf]
              · exact h5 e' he' hd
            · intro i hi
              exact h6 i (by simp [hi])

lemma svcParseChannelsGo_routing (source : String) (elems : List Xml) :
    ∀ (acc : List EPGChannelDict) (seen : List String)
      (rows : List ChanFailRow) (cs : List EPGChannelDict)
      (frows : List ChanFailRow),
    svcParseChannelsGo source elems acc seen rows = (cs, frows) →
    (∀ r ∈ rows, r ∈ frows) ∧
    (∀ c ∈ acc, c ∈ cs) ∧
    (∀ l1 e l2, elems = l1 ++ e :: l2 → hasDisplay e = true →
      (chanIdOf e ∈ seen ∨
        ∃ e' ∈ l1, hasDisplay e' = true ∧ chanIdOf e' = chanIdOf e) →
      ∃ ex, (⟨chanIdOf e, displayOf e, chanIdOf e, ex, "duplicate"⟩ :
        ChanFailRow) ∈ frows) ∧
    (∀ l1 e l2, elems = l1 ++ e :: l2 → hasDisplay e = true →
      chanIdOf e ∉ seen →
      (∀ e' ∈ l1, hasDisplay e' = true → chanIdOf e' ≠ chanIdOf e) →
      ({ channel_id := chanIdOf e, display_name := displayOf e,
         icon := iconOf e, is_primary := true, source := source } :
        EPGChannelDict) ∈ cs) := by
  induction elems with
  | nil =>
    intro acc seen rows cs frows h
    simp only [svcParseChannelsGo, Prod.mk.injEq] at h
    obtain ⟨h1, h2⟩ := h
    subst h1; subst h2
    refine ⟨fun r hr => hr, fun c hc => hc, ?_, ?_⟩
    · intro l1 e l2 hsplit
      cases l1 <;> simp at hsplit
    · intro l1 e l2 hsplit
      cases l1 <;> simp at hsplit
  | cons f rest ih =>
    intro acc seen rows cs frows h
    rcases hdn : (f.find "display-name").map Xml.text with _ | otxt
    · simp only [svcParseChannelsGo, hdn] at h
      obtain ⟨hM, hN, hG1, hG2⟩ := ih _ _ _ _ _ h
      have hdf : hasDisplay f = false := by
        rcases hf : f.find "display-name" with _ | dn
        · simp [hasDisplay, hf]
        · rw [hf] at hdn; simp at hdn
      refine ⟨?_, hN, ?_, ?_⟩
      · intro r hr
        exact hM r (List.mem_append_left _ hr)
      · intro l1 e l2 hsplit hd hcond
        rcases l1 with _ | ⟨g, l1'⟩
        · simp only [List.nil_append] at hsplit
          injection hsplit with hfe hrest
          subst hfe
          rw [hdf] at hd
          cases hd
        · simp only [List.cons_append] at hsplit
          injection hsplit with hfg hrest
          subst hfg
          refine hG1 l1' e l2 hrest hd ?_
          rcases hcond with hs | ⟨e', he', hde', hide'⟩
          · exact Or.inl hs
          · rcases List.mem_cons.mp he' with he' | he'
            · subst he'
              rw [hdf] at hde'
              cases hde'
            · exact Or.inr ⟨e', he', hde', hide'⟩
      · intro l1 e l2 hsplit hd hns hfirst
        rcases l1 with _ | ⟨g, l1'⟩
        · simp only [List.nil_append] at hsplit
          injection hsplit with hfe hrest
          subst hfe
          rw [hdf] at hd
          cases hd
        · simp only [List.cons_append] at hsplit
          injection hsplit with hfg hrest
          subst hfg
          exact hG2 l1' e l2 hrest hd hns
            (fun e' he' hde' => hfirst e' (List.mem_cons_of_mem _ he') hde')
    · rcases otxt with _ | txt
      · simp only [svcParseChannelsGo, hdn] at h
        obtain ⟨hM, hN, hG1, hG2⟩ := ih _ _ _ _ _ h
        have hdf : hasDisplay f = false := by
          rcases hf : f.find "display-name" with _ | dn
          · rw [hf] at hdn; simp at hdn
          · rw [hf] at hdn
            simp only [Option.map_some', Option.some.injEq] at hdn
            simp [hasDisplay, hf, hdn]
        refine ⟨?_, hN, ?_, ?_⟩
        · intro r hr
          exact hM r (List.mem_append_left _ hr)
        · intro l1 e l2 hsplit hd hcond
          rcases l1 with _ | ⟨g, l1'⟩
          · simp only [List.nil_append] at hsplit
            injection hsplit with hfe hrest
            subst hfe
            rw [hdf] at hd
            cases hd
          · simp only [List.cons_append] at hsplit
            injection hsplit with hfg hrest
            subst hfg
            refine hG1 l1' e l2 hrest hd ?_
            rcases hcond with hs | ⟨e', he', hde', hide'⟩
            · exact Or.inl hs
            · rcases List.mem_cons.mp he' with he' | he'
              · subst he'
                rw [hdf] at hde'
                cases hde'
              · exact Or.inr ⟨e', he', hde', hide'⟩
        · intro l1 e l2 hsplit hd hns hfirst
          rcases l1 with _ | ⟨g, l1'⟩
          · simp only [List.nil_append] at hsplit
            injection hsplit with hfe hrest
            subst hfe
            rw [hdf] at hd
            cases hd
          · simp only [List.cons_append] at hsplit
            injection hsplit with hfg hrest
            subst hfg
            exact hG2 l1' e l2 hrest hd hns
              (fun e' he' hde' => hfirst e' (List.mem_cons_of_mem _ he') hde')
      · by_cases htxt : txt = ""
        · subst htxt
          simp only [svcParseChannelsGo, hdn, ne_eq, not_true_eq_false,
            if_false] at h
          obtain ⟨hM, hN, hG1, hG2⟩ := ih _ _ _ _ _ h
          have hdf : hasDisplay f = false := by
            rcases hf : f.find "display-name" with _ | dn
            · rw [hf] at hdn; simp at hdn
            · rw [hf] at hdn
              simp only [Option.map_some', Option.some.injEq] at hdn
              simp [hasDisplay, hf, hdn]
          refine ⟨?_, hN, ?_, ?_⟩
          · intro r hr
            exact hM r (List.mem_append_left _ hr)
          · intro l1 e l2 hsplit hd hcond
            rcases l1 with _ | ⟨g, l1'⟩
            · simp only [List.nil_append] at hsplit
              injection hsplit with hfe hrest
              subst hfe
              rw [hdf] at hd
              cases hd
            · simp only [List.cons_append] at hsplit
              injection hsplit with hfg hrest
              subst hfg
              refine hG1 l1' e l2 hrest hd ?_
              rcases hcond with hs | ⟨e', he', hde', hide'⟩
              · exact Or.inl hs
              · rcases List.mem_cons.mp he' with he' | he'
                · subst he'
                  rw [hdf] at hde'
                  cases hde'
                · exact Or.inr ⟨e', he', hde', hide'⟩
          · intro l1 e l2 hsplit hd hns hfirst
            rcases l1 with _ | ⟨g, l1'⟩
            · simp only [List.nil_append] at hsplit
              injection hsplit with hfe hrest
              subst hfe
              rw [hdf] at hd
              cases hd
            · simp only [List.cons_append] at hsplit
              injection hsplit with hfg hrest
              subst hfg
              exact hG2 l1' e l2 hrest hd hns
                (fun e' he' hde' => hfirst e' (List.mem_cons_of_mem _ he') hde')
        · by_cases hmem : attrGetD f.attrs "id" "" ∈ seen
          · simp only [svcParseChannelsGo, hdn, ne_eq, htxt,
              not_false_eq_true, if_true, hmem] at h
            obtain ⟨hM, hN, hG1, hG2⟩ := ih _ _ _ _ _ h
            obtain ⟨dn, hf, htext⟩ :
                ∃ dn, f.find "display-name" = some dn ∧ dn.text = some txt := by
              rcases hf : f.find "display-name" with _ | dn
              · rw [hf] at hdn; simp at hdn
              · rw [hf] at hdn
                simp only [Option.map_some', Option.some.injEq] at hdn
                exact ⟨dn, rfl, hdn⟩
            have hdof : displayOf f = txt := by
              simp [displayOf, hf, htext]
            refine ⟨?_, hN, ?_, ?_⟩
            · intro r hr
              exact hM r (List.mem_append_left _ hr)
            · intro l1 e l2 hsplit hd hcond
              rcases l1 with _ | ⟨g, l1'⟩
              · simp only [List.nil_append] at hsplit
                injection hsplit with hfe hrest
                subst hfe
                have hRmem := hM _
                  (List.mem_append_right rows (List.mem_singleton_self _))
                rw [← hdof] at hRmem
                exact ⟨_, hRmem⟩
              · simp only [List.cons_append] at hsplit
                injection hsplit with hfg hrest
                subst hfg
                refine hG1 l1' e l2 hrest hd ?_
                rcases hcond with hs | ⟨e', he', hde', hide'⟩
                · exact Or.inl hs
                · rcases List.mem_cons.mp he' with he' | he'
                  · subst he'
                    refine Or.inl ?_
                    rw [← hide']
                    exact hmem
                  · exact Or.inr ⟨e', he', hde', hide'⟩
            · intro l1 e l2 hsplit hd hns hfirst
              rcases l1 with _ | ⟨g, l1'⟩
              · simp only [List.nil_append] at hsplit
                injection hsplit with hfe hrest
                subst hfe
                exact absurd hmem hns
              · simp only [List.cons_append] at hsplit
                injection hsplit with hfg hrest
                subst hfg
                exact hG2 l1' e l2 hrest hd hns
                  (fun e' he' hde' => hfirst e' (List.mem_cons_of_mem _ he') hde')
          · simp only [svcParseChannelsGo, hdn, ne_eq, htxt,
              not_false_eq_true, if_true, hmem, if_false] at h
            obtain ⟨hM, hN, hG1, hG2⟩ := ih _ _ _ _ _ h
            obtain ⟨dn, hf, htext⟩ :
                ∃ dn, f.find "display-name" = some dn ∧ dn.text = some txt := by
              rcases hf : f.find "display-name" with _ | dn
              · rw [hf] at hdn; simp at hdn
              · rw [hf] at hdn
                simp only [Option.map_some', Option.some.injEq] at hdn
                exact ⟨dn, rfl, hdn⟩
            have hdof : displayOf f = txt := by
              simp [displayOf, hf, htext]
            have hdisp : hasDisplay f = true := by
              simp [hasDisplay, hf, htext, htxt]
            refine ⟨hM, ?_, ?_, ?_⟩
            · intro c hc
              exact hN c (List.mem_append_left _ hc)
            · intro l1 e l2 hsplit hd hcond
              rcases l1 with _ | ⟨g, l1'⟩
              · simp only [List.nil_append] at hsplit
                injection hsplit with hfe hrest
                subst hfe
                rcases hcond with hs | ⟨e', he', hde', hide'⟩
                · exact absurd hs hmem
                · simp at he'
              · simp only [List.cons_append] at hsplit
                injection hsplit with hfg hrest
                subst hfg
                refine hG1 l1' e l2 hrest hd ?_
                rcases hcond with hs | ⟨e', he', hde', hide'⟩
                · exact Or.inl (List.mem_cons_of_mem _ hs)
                · rcases List.mem_cons.mp he' with he' | he'
                  · subst he'
                    refine Or.inl ?_
                    rw [← hide']
                    exact List.mem_cons_self _ _
                  · exact Or.inr ⟨e', he', hde', hide'⟩
            · intro l1 e l2 hsplit hd hns hfirst
              rcases l1 with _ | ⟨g, l1'⟩
              · simp only [List.nil_append] at hsplit
                injection hsplit with hfe hrest
                subst hfe
                have hEmem := hN _
                  (List.mem_append_right acc (List.mem_singleton_self _))
                rw [← hdof] at hEmem
                exact hEmem
              · simp only [List.cons_append] at hsplit
                injection hsplit with hfg hrest
                subst hfg
                refine hG2 l1' e l2 hrest hd ?_
                  (fun e' he' hde' => hfirst e' (List.mem_cons_of_mem _ he') hde')
                intro hIn
                rcases List.mem_cons.mp hIn with hh | ht
                · have hne := hfirst f (List.mem_cons_self _ _) hdisp
                  exact hne hh.symm
                · exact hns ht

/-- C10 (amended): for every guide file, the channel list of the service EPG
parse has pairwise distinct `channel_id`s, every returned entry has
`is_primary = True`, and every channel id that occurs on an element bearing a
display name is represented by exactly one entry; every rejection row has
reason `duplicate` (a later display-named element with an already-seen id) or
`missing_display_name` (an element without a usable display name — even when
its id was already seen), and each element yields exactly one entry or one
rejection row.  Moreover every display-named element preceded by a
display-named element with the same id is appended to the failure log with
reason `duplicate`, carrying its id and its own display name; and the kept
entry is built from the first display-named occurrence of its id — that
element supplies the entry's display name and icon, so a later duplicate's
data never forms the returned entry. -/
theorem c10_channel_dedup (source : String) (root : Xml) :
    ((svcParseChannels source (findallDesc root "channel")).1.map
        EPGChannelDict.channel_id).Nodup ∧
    (∀ c ∈ (svcParseChannels source (findallDesc root "channel")).1,
      c.is_primary = true) ∧
    (∀ row ∈ (svcParseChannels source (findallDesc root "channel")).2,
      row.reason = "duplicate" ∨ row.reason = "missing_display_name") ∧
    (svcParseChannels source (findallDesc root "channel")).1.length +
        (svcParseChannels source (findallDesc root "channel")).2.length =
      (findallDesc root "channel").length ∧
    (∀ e ∈ findallDesc root "channel", hasDisplay e = true →
      chanIdOf e ∈ (svcParseChannels source (findallDesc root "channel")).1.map
        EPGChannelDict.channel_id) ∧
    (∀ l1 e l2, findallDesc root "channel" = l1 ++ e :: l2 →
      hasDisplay e = true →
      (∃ e' ∈ l1, hasDisplay e' = true ∧ chanIdOf e' = chanIdOf e) →
      ∃ ex, (⟨chanIdOf e, displayOf e, chanIdOf e, ex, "duplicate"⟩ :
        ChanFailRow) ∈
          (svcParseChannels source (findallDesc root "channel")).2) ∧
    (∀ l1 e l2, findallDesc root "channel" = l1 ++ e :: l2 →
      hasDisplay e = true →
      (∀ e' ∈ l1, hasDisplay e' = true → chanIdOf e' ≠ chanIdOf e) →
      ({ channel_id := chanIdOf e, display_name := displayOf e,
         icon := iconOf e, is_primary := true, source := source } :
        EPGChannelDict) ∈
          (svcParseChannels source (findallDesc root "channel")).1) := by
  rcases hr : svcParseChannels source (findallDesc root "channel")
    with ⟨cs, frows⟩
  obtain ⟨h1, h2, h3, h4, h5, _⟩ :=
    svcParseChannelsGo_invariant source (findallDesc root "channel")
      [] [] [] cs frows hr (by simp) (by simp) (by simp)
  obtain ⟨_, _, hG1, hG2⟩ :=
    svcParseChannelsGo_routing source (findallDesc root "channel")
      [] [] [] cs frows hr
  refine ⟨h1, h2, ?_, by simpa using h4, h5, ?_, ?_⟩
  · intro row hrow
    rcases h3 row hrow with hm | hres
    · simp at hm
    · exact hres
  · intro l1 e l2 hs hd hdup
    exact hG1 l1 e l2 hs hd (Or.inr hdup)
  · intro l1 e l2 hs hd hfirst
    exact hG2 l1 e l2 hs hd (by simp) hfirst

/-- C10 witness: a guide with two same-id display-named channels — the first
(display name `A`) is kept as the entry, the second is appended to the
failure log with reason `duplicate` carrying its own display name `B`. -/
theorem c10_channel_dedup_witness :
    ((svcParseChannels "s" (findallDesc
        (Xml.elem "tv" [] none
          [Xml.elem "channel" [("id", "X")] none
            [Xml.elem "display-name" [] (some "A") []],
           Xml.elem "channel" [("id", "X")] none
            [Xml.elem "display-name" [] (some "B") []]]) "channel")).1.map
      EPGChannelDict.channel_id).Nodup ∧
    (∃ ex, (⟨"X", "B", "X", ex, "duplicate"⟩ : ChanFailRow) ∈
      (svcParseChannels "s" (findallDesc
        (Xml.elem "tv" [] none
          [Xml.elem "channel" [("id", "X")] none
            [Xml.elem "display-name" [] (some "A") []],
           Xml.elem "channel" [("id", "X")] none
            [Xml.elem "display-name" [] (some "B") []]]) "channel")).2) ∧
    ({ channel_id := "X", display_name := "A", icon := none,
       is_primary := true, source := "s" } : EPGChannelDict) ∈
      (svcParseChannels "s" (findallDesc
        (Xml.elem "tv" [] none
          [Xml.elem "channel" [("id", "X")] none
            [Xml.elem "display-name" [] (some "A") []],
           Xml.elem "channel" [("id", "X")] none
            [Xml.elem "display-name" [] (some "B") []]]) "channel")).1 := by
  have h := c10_channel_dedup "s"
    (Xml.elem "tv" [] none
      [Xml.elem "channel" [("id", "X")] none
        [Xml.elem "display-name" [] (some "A") []],
       Xml.elem "channel" [("id", "X")] none
        [Xml.elem "display-name" [] (some "B") []]])
  refine ⟨h.1, ?_, ?_⟩
  · exact h.2.2.2.2.2.1
      [Xml.elem "channel" [("id", "X")] none
        [Xml.elem "display-name" [] (some "A") []]]
      (Xml.elem "channel" [("id", "X")] none
        [Xml.elem "display-name" [] (some "B") []])
      [] rfl rfl
      ⟨Xml.elem "channel" [("id", "X")] none
        [Xml.elem "display-name" [] (some "A") []],
       List.mem_singleton_self _, rfl, rfl⟩
  · exact h.2.2.2.2.2.2 []
      (Xml.elem "channel" [("id", "X")] none
        [Xml.elem "display-name" [] (some "A") []])
      [Xml.elem "channel" [("id", "X")] none
        [Xml.elem "display-name" [] (some "B") []]]
      rfl rfl (by intro e' he'; simp at he')

end ISeeTV
